import Mathlib

/-!
# Verification of `sidefuzz`'s wasm execution harness (`src/wasm.rs`)

This development shallowly embeds `WasmModule` from `src/wasm.rs` together
with the fragment of the `wasmi` 0.30 API that the file uses (fuel-metered
stores, linear-memory writes, zero-argument exported function calls).

The embedding of the wasmi runtime is an abstract, deterministic machine:
a `ModuleEnv` is the denotation of one byte sequence of module bytes under
wasmi.  Its `callSem` field gives, for each exported function name, the
outcome of invoking that export on a given linear memory and internal guest
state: a result (return values or a trap code), the updated memory and
guest state, and the metering (fuel) cost.  Fuel bookkeeping follows the
documented wasmi 0.30 `Store` API: `add_fuel` adds to the remaining fuel
(saturating at `u64::MAX`, the only semantics under which the repository's
repeated `add_fuel(u64::MAX - fuel_consumed())` calls do not abort), and
`fuel_consumed` reports total fuel provided minus fuel remaining.

All functions of `src/wasm.rs` are transcribed statement by statement:
`count_instructions` (`count_instructions`), `reboot` (`rebootAt`), `set_input_pointer`
(`set_input_pointer`), `prime_lazy_statics` (`prime_lazy_statics`), and `new` (`newWith`).
`reboot` calls `new`, which may recursively reboot again during priming, so
the family is stratified by an explicit reboot depth; depth 0 renders the
`expect`-abort of a failed reboot as `none` (a panic).
-/

namespace SideFuzz

set_option maxRecDepth 100000

/-- `u64::MAX`. -/
def UMAX : Nat := 2 ^ 64 - 1

/-- Interpretation of Rust's `i32 as u32` (two's complement reinterpretation). -/
def toU32 (v : Int) : Nat := (v % (2 ^ 32 : Int)).toNat

/-- Interpretation of Rust's `i32 as usize` on a 64-bit target
(sign extension to `i64`, then reinterpretation as `u64`). -/
def toUsize (v : Int) : Nat := (v % (2 ^ 64 : Int)).toNat

/-- The wasmi value kinds the harness manipulates (`wasmi::Value`).
`i32` payloads are the signed `i32` the Rust code matches on. -/
inductive Value where
  | i32 (v : Int)
  | i64 (v : Int)
  deriving DecidableEq

/-- Trap codes (`wasmi::core::TrapCode`); only `MemoryOutOfBounds` is
inspected by the harness, the others are bundled. -/
inductive TrapCode where
  | memoryOutOfBounds
  | outOfFuel
  | other (code : Nat)
  deriving DecidableEq

/-- `wasmi::Error` as the harness observes it: a code trap, a host-side
function signature mismatch, or some other engine error. -/
inductive WasmiError where
  | trap (t : TrapCode)
  | funcMismatch
  | engine (code : Nat)
  deriving DecidableEq

/-- `SideFuzzError` (`src/errors.rs` is not in the provided sources; the
constructors below are the ones `src/wasm.rs` actually constructs, with
payloads kept where the harness code supplies them).
`PrimingExhausted` is modelled from the spec: §7 of the spec lists a
`PrimingExhausted(lastError)` error kind that no code in `src/wasm.rs`
constructs; it is included so that statements about it can be expressed. -/
inductive SideFuzzError where
  | WasmModuleNoMemory
  | WasmModuleBadMemory
  | WasmModuleNoInputPointer
  | WasmModuleBadInputPointer
  | WasmModuleBadInpuLen
  | FuzzLenTooLong (len : Nat)
  | MemorySetError
  | WasmError (e : WasmiError)
  | PrimingExhausted (last : SideFuzzError)
  deriving DecidableEq

/-- Outcome of invoking a zero-argument export on the abstract machine:
the produced values or trap, the updated linear memory and internal guest
state, and the fuel cost charged by the metered engine. -/
structure CallOut where
  result : Except TrapCode (List Value)
  mem : List Nat
  gst : Nat
  cost : Nat

/-- Denotation of one wasm module byte sequence under the wasmi engine:
instantiation outcome, the exported memory, the exported functions with
their (result) arities, and the semantics of calling each export. -/
structure ModuleEnv where
  /-- `Module::new` + `instantiate` + `ensure_no_start` succeed. -/
  instantiateOk : Bool
  /-- the wasmi error reported when instantiation fails. -/
  instantiateErr : WasmiError
  /-- the instance has an export named `"memory"`. -/
  hasMemoryExport : Bool
  /-- that export is a linear memory (`into_memory` succeeds). -/
  memoryIsMemory : Bool
  /-- initial contents of the exported linear memory. -/
  initMem : List Nat
  /-- initial internal guest state (globals, lazy statics, ...). -/
  initGst : Nat
  /-- `funcExports name` iff the instance exports a function named `name`. -/
  funcExports : String → Bool
  /-- number of results of the exported function named `name`. -/
  arity : String → Nat
  /-- semantics of invoking the zero-argument export `name`. -/
  callSem : String → List Nat → Nat → CallOut

/-- The wasmi `Store` state the harness owns: fuel bookkeeping
(remaining fuel and total fuel ever provided), the linear memory contents,
and the guest-internal state. -/
structure Store where
  remaining : Nat
  total : Nat
  mem : List Nat
  gst : Nat
  deriving DecidableEq

/-- `Store::add_fuel` (wasmi 0.30): adds `delta` to the remaining fuel and
to the total fuel, saturating at `u64::MAX`. -/
def addFuel (st : Store) (delta : Nat) : Store :=
  { st with remaining := min (st.remaining + delta) UMAX,
            total := min (st.total + delta) UMAX }

/-- `Store::fuel_consumed` (wasmi 0.30): total fuel provided minus fuel
remaining. -/
def fuelConsumed (st : Store) : Nat := st.total - st.remaining

/-- The fuel top-up `count_instructions` performs before each call:
`self.store.add_fuel(u64::MAX - self.store.fuel_consumed().unwrap())`. -/
def topUp (st : Store) : Store := addFuel st (UMAX - fuelConsumed st)

/-- Overwrite `data.length` bytes of `mem` starting at `ptr`. -/
def writeBytes (mem : List Nat) (ptr : Nat) (data : List Nat) : List Nat :=
  mem.take ptr ++ data ++ mem.drop (ptr + data.length)

/-- `Memory::write`: fails iff the write would run past the end of the
linear memory; otherwise writes the whole buffer. -/
def memWrite (mem : List Nat) (ptr : Nat) (data : List Nat) :
    Except Unit (List Nat) :=
  if ptr + data.length ≤ mem.length then .ok (writeBytes mem ptr data)
  else .error ()

/-- `Func::call` on a zero-argument export with `nResults` result slots:
checks the signature, charges fuel (trapping with `OutOfFuel` when the cost
exceeds the remaining fuel), and applies the module's call semantics. -/
def callFunc (env : ModuleEnv) (name : String) (nResults : Nat)
    (st : Store) : Except WasmiError (List Value) × Store :=
  if env.arity name = nResults then
    let out := env.callSem name st.mem st.gst
    if out.cost ≤ st.remaining then
      let st' : Store :=
        { st with mem := out.mem, gst := out.gst,
                  remaining := st.remaining - out.cost }
      match out.result with
      | .ok vs => (.ok vs, st')
      | .error t => (.error (.trap t), st')
    else
      (.error (.trap .outOfFuel), { st with remaining := 0 })
  else
    (.error .funcMismatch, st)

/-- The harness state: `WasmModule` from `src/wasm.rs`.  The retained raw
module bytes and the wasmi `Instance`/`Memory` handles are both represented
by the module denotation `module`; `store` carries all mutable sandbox
state. -/
structure WasmModule where
  module : ModuleEnv
  store : Store
  fuzz_ptr : Nat
  fuzz_len : Nat
  input_is_str : Bool

/-- `self.memory.write(&mut self.store, self.fuzz_ptr, input)`. -/
def writeInput (wm : WasmModule) (input : List Nat) : Except Unit Store :=
  match memWrite wm.store.mem wm.fuzz_ptr input with
  | .ok m => .ok { wm.store with mem := m }
  | .error _ => .error ()

/-- A random-byte oracle standing for `rand::random::<u8>()`:
`rnd i j` is the `j`-th random byte drawn for the `i`-th priming attempt. -/
def Rnd : Type := Nat → Nat → Nat

/-- `(0..len).map(|_| rand::random::<u8>()).collect()` with byte stream `s`. -/
def genInput (s : Nat → Nat) (len : Nat) : List Nat :=
  (List.range len).map s

/-- `count_instructions` (src/wasm.rs lines 74-93), parametric in the
`reboot` routine it invokes on a `MemoryOutOfBounds` trap.  Returns `none`
when a triggered reboot aborts (`expect`), otherwise the `Result` and the
updated harness. -/
def count_instructions (rb : Rnd → WasmModule → Option WasmModule) (rnd : Rnd)
    (wm : WasmModule) (input : List Nat) :
    Option (Except SideFuzzError Nat × WasmModule) :=
  match writeInput wm input with
  | .error _ => some (.error .MemorySetError, wm)
  | .ok st1 =>
    let st2 := topUp st1
    if wm.module.funcExports "fuzz" then
      match callFunc wm.module "fuzz" 0 st2 with
      | (.error err, st3) =>
        if err = WasmiError.trap .memoryOutOfBounds then
          match rb rnd { wm with store := st3 } with
          | some wr => some (.error (.WasmError err), wr)
          | none => none
        else
          some (.error (.WasmError err), { wm with store := st3 })
      | (.ok _, st3) =>
        some (.ok (UMAX - fuelConsumed st3), { wm with store := st3 })
    else
      some (.error .WasmModuleNoInputPointer, { wm with store := st2 })

/-- `set_input_pointer` (src/wasm.rs lines 132-188), parametric in
`count_instructions`.  The first call's result is discarded
(`let _ = crate::black_box(...)`) but its state effects persist; the three
convention getters are then invoked and matched exactly as in the source. -/
def set_input_pointer
    (ci : Rnd → WasmModule → List Nat →
      Option (Except SideFuzzError Nat × WasmModule))
    (rnd : Rnd) (wm : WasmModule) :
    Option (Except SideFuzzError WasmModule) :=
  match ci rnd wm [] with
  | none => none
  | some (_, wm1) =>
    if wm1.module.funcExports "input_pointer" then
      match callFunc wm1.module "input_pointer" 1 wm1.store with
      | (.error e, _) => some (.error (.WasmError e))
      | (.ok ptrVals, st2) =>
        let wm2 := { wm1 with store := st2 }
        if wm2.module.funcExports "input_len" then
          match callFunc wm2.module "input_len" 1 wm2.store with
          | (.error e, _) => some (.error (.WasmError e))
          | (.ok lenVals, st3) =>
            let wm3 := { wm2 with store := st3 }
            if wm3.module.funcExports "input_is_str" then
              match callFunc wm3.module "input_is_str" 1 wm3.store with
              | (.error e, _) => some (.error (.WasmError e))
              | (.ok strVals, st4) =>
                let wm4 := { wm3 with store := st4 }
                match ptrVals.headD (Value.i64 0) with
                | .i32 p =>
                  match lenVals.headD (Value.i64 0) with
                  | .i32 len =>
                    if 1024 < len then
                      some (.error (.FuzzLenTooLong (toU32 len)))
                    else
                      match strVals.headD (Value.i64 0) with
                      | .i32 s =>
                        some (.ok { wm4 with
                          fuzz_ptr := toUsize p,
                          fuzz_len := toU32 len,
                          input_is_str := decide (0 < s) })
                      | _ => some (.error .WasmModuleBadInpuLen)
                  | _ => some (.error .WasmModuleBadInpuLen)
                | _ => some (.error .WasmModuleBadInputPointer)
            else some (.error .WasmModuleBadInpuLen)
        else some (.error .WasmModuleBadInpuLen)
    else some (.error .WasmModuleNoInputPointer)

/-- `prime_lazy_statics` (src/wasm.rs lines 115-129), parametric in
`count_instructions`.  `i` is the source's attempt counter, `fuel` bounds
the remaining loop iterations (the loop body runs at most 100 times, so
callers pass `fuel = 100`; `fuel = 0` is unreachable padding).  Returns the
updated harness on the first success, and the last observed error once
`i` reaches 100. -/
def prime_lazy_statics
    (ci : Rnd → WasmModule → List Nat →
      Option (Except SideFuzzError Nat × WasmModule))
    (rnd : Rnd) (wm : WasmModule) (i : Nat) (fuel : Nat) :
    Option (Except SideFuzzError WasmModule) :=
  match fuel with
  | 0 => none
  | fuel' + 1 =>
    let input := genInput (rnd i) wm.fuzz_len
    match ci rnd wm input with
    | none => none
    | some (.ok _, wm') => some (.ok wm')
    | some (.error e, wm') =>
      if i + 1 ≥ 100 then some (.error e)
      else prime_lazy_statics ci rnd wm' (i + 1) fuel'

/-- The freshly created harness before `set_input_pointer` runs:
`Store::new` provides no fuel, and the struct literal in `new` initialises
`fuzz_ptr = 0`, `fuzz_len = 0`, `input_is_str = false`. -/
def initialStore (env : ModuleEnv) : Store :=
  { remaining := 0, total := 0, mem := env.initMem, gst := env.initGst }

/-- The `Self { .. }` literal in `WasmModule::new`. -/
def initialHarness (env : ModuleEnv) : WasmModule :=
  { module := env, store := initialStore env,
    fuzz_ptr := 0, fuzz_len := 0, input_is_str := false }

/-- `WasmModule::new` (src/wasm.rs lines 20-51), parametric in
`count_instructions`: instantiate, resolve the exported memory, run
`set_input_pointer`, then `prime_lazy_statics`. -/
def newWith
    (ci : Rnd → WasmModule → List Nat →
      Option (Except SideFuzzError Nat × WasmModule))
    (rnd : Rnd) (env : ModuleEnv) :
    Option (Except SideFuzzError WasmModule) :=
  if env.instantiateOk then
    if env.hasMemoryExport then
      if env.memoryIsMemory then
        match set_input_pointer ci rnd (initialHarness env) with
        | none => none
        | some (.error e) => some (.error e)
        | some (.ok wm1) => prime_lazy_statics ci rnd wm1 0 100
      else some (.error .WasmModuleBadMemory)
    else some (.error .WasmModuleNoMemory)
  else some (.error (.WasmError env.instantiateErr))

/-- `reboot` (src/wasm.rs lines 96-102) at reboot depth `d + 1`:
run `Self::new` on the retained module bytes and adopt only the rebuilt
`store`/`instance`/`memory`, keeping `fuzz_ptr`, `fuzz_len` and
`input_is_str` as they were.  A failed inner construction is the
`expect` panic, rendered as `none`; depth 0 renders a reboot that would
need yet another nested reboot. -/
def rebootAt : Nat → Rnd → WasmModule → Option WasmModule
  | 0, _, _ => none
  | d + 1, rnd, wm =>
    match newWith (count_instructions (rebootAt d)) rnd wm.module with
    | some (.ok fresh) => some { wm with store := fresh.store }
    | _ => none

/-- `count_instructions` with reboot depth `d`. -/
def count_instructionsAt (d : Nat) : Rnd → WasmModule → List Nat →
    Option (Except SideFuzzError Nat × WasmModule) :=
  count_instructions (rebootAt d)

/-- `set_input_pointer` with reboot depth `d`. -/
def set_input_pointerAt (d : Nat) : Rnd → WasmModule →
    Option (Except SideFuzzError WasmModule) :=
  set_input_pointer (count_instructionsAt d)

/-- `WasmModule::new` with reboot depth `d`. -/
def newAt (d : Nat) : Rnd → ModuleEnv →
    Option (Except SideFuzzError WasmModule) :=
  newWith (count_instructionsAt d)

/-- Modelled from the spec: §4.4 describes reboot as rebuilding the triple
"via the same construction path as 4.1, but explicitly skips 4.2" — i.e.
the Module Loader runs and Priming (4.5) warms the fresh instance, but the
Convention Resolver (`set_input_pointer`) is never executed and the
retained descriptor is reused.  This definition follows those words, for
comparison with the source's `rebootAt`. -/
def rebootSpecAt : Nat → Rnd → WasmModule → Option WasmModule
  | 0, _, _ => none
  | d + 1, rnd, wm =>
    if wm.module.instantiateOk ∧ wm.module.hasMemoryExport ∧
        wm.module.memoryIsMemory then
      match prime_lazy_statics (count_instructions (rebootSpecAt d)) rnd
          { wm with store := initialStore wm.module } 0 100 with
      | some (.ok fresh) => some { wm with store := fresh.store }
      | _ => none
    else none

/-! ## Invariant and convention predicates -/

/-- The store of a freshly constructed harness: no fuel provided yet. -/
def InitF (st : Store) : Prop := st.remaining = 0 ∧ st.total = 0

/-- Fuel states reachable at harness rest points: total fuel saturated at
`u64::MAX` with at most `2^62` of the budget consumed since the last
top-up. -/
def GenF (st : Store) : Prop :=
  st.total = UMAX ∧ UMAX - 2 ^ 62 ≤ st.remaining ∧ st.remaining ≤ UMAX

/-- Fuel states right after a metered call whose cost was at most `2^60`. -/
def StrongF (st : Store) : Prop :=
  st.total = UMAX ∧ UMAX - 2 ^ 60 ≤ st.remaining ∧ st.remaining ≤ UMAX

/-- Pre-states accepted by the fuel-reset argument. -/
def PreOK (st : Store) : Prop := InitF st ∨ GenF st

/-- Every convention export the harness ever invokes has per-call metering
cost at most `2^60` (an ample bound for real modules; it keeps the
saturating top-up a genuine reset). -/
def CostOK (env : ModuleEnv) : Prop :=
  ∀ m g, (env.callSem "fuzz" m g).cost ≤ 2 ^ 60 ∧
    (env.callSem "input_pointer" m g).cost ≤ 2 ^ 60 ∧
    (env.callSem "input_len" m g).cost ≤ 2 ^ 60 ∧
    (env.callSem "input_is_str" m g).cost ≤ 2 ^ 60

/-- The convention exports never change the size of the linear memory. -/
def LenOK (env : ModuleEnv) : Prop :=
  ∀ m g, (env.callSem "fuzz" m g).mem.length = m.length ∧
    (env.callSem "input_pointer" m g).mem.length = m.length ∧
    (env.callSem "input_len" m g).mem.length = m.length ∧
    (env.callSem "input_is_str" m g).mem.length = m.length

/-- A benign module environment. -/
def EnvOK (env : ModuleEnv) : Prop := CostOK env ∧ LenOK env

/-- The harness's linear memory keeps the module's memory size. -/
def MemLenInv (wm : WasmModule) : Prop :=
  wm.store.mem.length = wm.module.initMem.length

/-- A module environment that satisfies the calling convention of the
harness, declaring input pointer `P`, input length `L` and string flag `S`
(the three getters are pure, zero-cost accessors; the `"fuzz"` entry point
always succeeds, costs at most `2^60` metering units, and never resizes the
linear memory). -/
structure Convention (env : ModuleEnv) (P L S : Int) : Prop where
  inst : env.instantiateOk = true
  hasMem : env.hasMemoryExport = true
  isMem : env.memoryIsMemory = true
  fuzzExp : env.funcExports "fuzz" = true
  ptrExp : env.funcExports "input_pointer" = true
  lenExp : env.funcExports "input_len" = true
  strExp : env.funcExports "input_is_str" = true
  fuzzAr : env.arity "fuzz" = 0
  ptrAr : env.arity "input_pointer" = 1
  lenAr : env.arity "input_len" = 1
  strAr : env.arity "input_is_str" = 1
  fuzzRes : ∀ m g, (env.callSem "fuzz" m g).result = .ok []
  fuzzCost : ∀ m g, (env.callSem "fuzz" m g).cost ≤ 2 ^ 60
  fuzzMemLen : ∀ m g, (env.callSem "fuzz" m g).mem.length = m.length
  ptrSem : ∀ m g, env.callSem "input_pointer" m g = ⟨.ok [.i32 P], m, g, 0⟩
  lenSem : ∀ m g, env.callSem "input_len" m g = ⟨.ok [.i32 L], m, g, 0⟩
  strSem : ∀ m g, env.callSem "input_is_str" m g = ⟨.ok [.i32 S], m, g, 0⟩
  ptrNN : 0 ≤ P
  lenLB : -(2 ^ 31) ≤ L
  lenUB : L < 2 ^ 31


/-- Linear memory after the (single, always-successful) priming attempt of
a convention-following module: the first priming input, drawn from stream
`rnd 0`, written over the memory left by the resolver's initial call. -/
def primedMem (rnd : Rnd) (env : ModuleEnv) (P L : Int) : List Nat :=
  writeBytes (env.callSem "fuzz" env.initMem env.initGst).mem (toUsize P)
    (genInput (rnd 0) (toU32 L))

/-- The harness produced by `WasmModule::new` on a convention-following
module (resolver populated the descriptor; priming succeeded on its first
attempt). -/
def newHarness (rnd : Rnd) (env : ModuleEnv) (P L S : Int) : WasmModule :=
  { module := env,
    store :=
      { remaining := UMAX - (env.callSem "fuzz" (primedMem rnd env P L)
          (env.callSem "fuzz" env.initMem env.initGst).gst).cost,
        total := UMAX,
        mem := (env.callSem "fuzz" (primedMem rnd env P L)
          (env.callSem "fuzz" env.initMem env.initGst).gst).mem,
        gst := (env.callSem "fuzz" (primedMem rnd env P L)
          (env.callSem "fuzz" env.initMem env.initGst).gst).gst },
    fuzz_ptr := toUsize P, fuzz_len := toU32 L,
    input_is_str := decide (0 < S) }


/-! ## Concrete module environments (used as witnesses/counterexamples) -/

/-- A fixed random-byte stream: every drawn byte is 1. -/
def rnd1 : Rnd := fun _ _ => 1

/-- A second, different random-byte stream: every drawn byte is 3. -/
def rnd3 : Rnd := fun _ _ => 3

/-- Exports of a convention-following module. -/
def stdExports : String → Bool := fun n =>
  n = "fuzz" ∨ n = "input_pointer" ∨ n = "input_len" ∨ n = "input_is_str"

/-- Result arities of a convention-following module. -/
def stdArity : String → Nat := fun n => if n = "fuzz" then 0 else 1

/-- A module denotation with nothing in it (fallback value only). -/
def emptyEnv : ModuleEnv where
  instantiateOk := false
  instantiateErr := .engine 0
  hasMemoryExport := false
  memoryIsMemory := false
  initMem := []
  initGst := 0
  funcExports := fun _ => false
  arity := fun _ => 0
  callSem := fun _ m g => ⟨.error (.other 0), m, g, 0⟩

/-- Extract the harness from a successful construction (fallback otherwise). -/
def okOf (o : Option (Except SideFuzzError WasmModule)) : WasmModule :=
  match o with
  | some (.ok w) => w
  | _ => initialHarness emptyEnv

/-- Extract the error from a failed construction. -/
def errOf (o : Option (Except SideFuzzError WasmModule)) : Option SideFuzzError :=
  match o with
  | some (.error e) => some e
  | _ => none

/-- Is the error the spec's `PrimingExhausted` wrapper? -/
def isPrimingExhausted : SideFuzzError → Bool := fun e =>
  match e with
  | .PrimingExhausted _ => true
  | _ => false

/-- A well-behaved module with 8 bytes of memory, input pointer 0, declared
input length `L`, non-string input, whose `"fuzz"` export always succeeds
at a metering cost of 5 units and leaves memory and guest state alone. -/
def envLen (L : Int) : ModuleEnv where
  instantiateOk := true
  instantiateErr := .engine 0
  hasMemoryExport := true
  memoryIsMemory := true
  initMem := [0, 0, 0, 0, 0, 0, 0, 0]
  initGst := 0
  funcExports := stdExports
  arity := stdArity
  callSem := fun n m g =>
    if n = "fuzz" then ⟨.ok [], m, g, 5⟩
    else if n = "input_pointer" then ⟨.ok [.i32 0], m, g, 0⟩
    else if n = "input_len" then ⟨.ok [.i32 L], m, g, 0⟩
    else if n = "input_is_str" then ⟨.ok [.i32 0], m, g, 0⟩
    else ⟨.error (.other 0), m, g, 0⟩

/-- Like `envLen 2`, but `"fuzz"` always traps, with a trap code that
encodes the guest-state counter `g`, and each `"fuzz"` invocation bumps
`g` — so the trap code of the returned error reveals how many times the
entry point had been invoked. -/
def envC5 : ModuleEnv where
  instantiateOk := true
  instantiateErr := .engine 0
  hasMemoryExport := true
  memoryIsMemory := true
  initMem := [0, 0, 0, 0]
  initGst := 0
  funcExports := stdExports
  arity := stdArity
  callSem := fun n m g =>
    if n = "fuzz" then ⟨.error (.other g), m, g + 1, 5⟩
    else if n = "input_pointer" then ⟨.ok [.i32 0], m, g, 0⟩
    else if n = "input_len" then ⟨.ok [.i32 2], m, g, 0⟩
    else if n = "input_is_str" then ⟨.ok [.i32 0], m, g, 0⟩
    else ⟨.error (.other 0), m, g, 0⟩

/-- A convention-shaped module (pointer 0, length 2, 4 bytes of memory)
whose `"fuzz"` export always fails with trap code `t` at cost `c`. -/
def alwaysTrapEnv (t : TrapCode) (c : Nat) : ModuleEnv where
  instantiateOk := true
  instantiateErr := .engine 0
  hasMemoryExport := true
  memoryIsMemory := true
  initMem := [0, 0, 0, 0]
  initGst := 0
  funcExports := stdExports
  arity := stdArity
  callSem := fun n m g =>
    if n = "fuzz" then ⟨.error t, m, g, c⟩
    else if n = "input_pointer" then ⟨.ok [.i32 0], m, g, 0⟩
    else if n = "input_len" then ⟨.ok [.i32 2], m, g, 0⟩
    else if n = "input_is_str" then ⟨.ok [.i32 0], m, g, 0⟩
    else ⟨.error (.other 0), m, g, 0⟩

/-- Like `envLen 2`, but `"fuzz"` traps with `MemoryOutOfBounds` exactly
when the first memory byte is 7 (cost 3 either way). -/
def envC6 : ModuleEnv where
  instantiateOk := true
  instantiateErr := .engine 0
  hasMemoryExport := true
  memoryIsMemory := true
  initMem := [0, 0, 0, 0, 0, 0, 0, 0]
  initGst := 0
  funcExports := stdExports
  arity := stdArity
  callSem := fun n m g =>
    if n = "fuzz" then
      ⟨if m.headD 0 = 7 then .error .memoryOutOfBounds else .ok [], m, g, 3⟩
    else if n = "input_pointer" then ⟨.ok [.i32 0], m, g, 0⟩
    else if n = "input_len" then ⟨.ok [.i32 2], m, g, 0⟩
    else if n = "input_is_str" then ⟨.ok [.i32 0], m, g, 0⟩
    else ⟨.error (.other 0), m, g, 0⟩

/-- Like `envLen 2`, but each of the three resolver getters bumps the
guest-state counter `g` (and `"fuzz"` leaves it alone) — so `g` counts how
often the Convention Resolver's exports have been invoked on an instance. -/
def envC8 : ModuleEnv where
  instantiateOk := true
  instantiateErr := .engine 0
  hasMemoryExport := true
  memoryIsMemory := true
  initMem := [0, 0, 0, 0, 0, 0, 0, 0]
  initGst := 0
  funcExports := stdExports
  arity := stdArity
  callSem := fun n m g =>
    if n = "fuzz" then ⟨.ok [], m, g, 5⟩
    else if n = "input_pointer" then ⟨.ok [.i32 0], m, g + 1, 0⟩
    else if n = "input_len" then ⟨.ok [.i32 2], m, g + 1, 0⟩
    else if n = "input_is_str" then ⟨.ok [.i32 0], m, g + 1, 0⟩
    else ⟨.error (.other 0), m, g, 0⟩

/-- `envLen 2` with the `"input_len"` export removed. -/
def envNoLen : ModuleEnv :=
  { envLen 2 with funcExports := fun n =>
      n = "fuzz" ∨ n = "input_pointer" ∨ n = "input_is_str" }

/-- `envLen 2` with the `"input_is_str"` export removed. -/
def envNoStr : ModuleEnv :=
  { envLen 2 with funcExports := fun n =>
      n = "fuzz" ∨ n = "input_pointer" ∨ n = "input_len" }

/-- A module exporting only memory and `"input_pointer"`. -/
def envC9A : ModuleEnv :=
  { envLen 2 with funcExports := fun n => n = "input_pointer" }

/-- A module with no exported `"memory"`. -/
def envC9B : ModuleEnv :=
  { envLen 2 with hasMemoryExport := false }

/-- The harness built from `envLen 2` with random stream `rnd1`. -/
def wmA : WasmModule := okOf (newAt 1 rnd1 (envLen 2))

/-- The harness built independently from the same module with the
different random stream `rnd3`. -/
def wmB : WasmModule := okOf (newAt 1 rnd3 (envLen 2))

/-- The harness built from `envC6` with random stream `rnd1`. -/
def wmC6 : WasmModule := okOf (newAt 1 rnd1 envC6)

/-- `wmC6`'s store right after writing the fault-triggering input `[7, 7]`
(also the store after the faulting call: the trap leaves memory alone). -/
def stC6 : Store :=
  { remaining := UMAX - 3, total := UMAX, mem := [7, 7, 0, 0, 0, 0, 0, 0],
    gst := 0 }

/-- The harness state after `wmC6` reboots from the out-of-bounds fault. -/
def wrC6 : WasmModule :=
  { module := envC6,
    store := { remaining := UMAX - 3, total := UMAX,
               mem := [1, 1, 0, 0, 0, 0, 0, 0], gst := 0 },
    fuzz_ptr := 0, fuzz_len := 2, input_is_str := false }

/-- The harness built from `envC8` with random stream `rnd1`. -/
def wmC8 : WasmModule := okOf (newAt 1 rnd1 envC8)


/-- The metering cost of the measured call: the cost `"fuzz"` charges when
invoked on the harness `newHarness r env P L S` right after input `x` has
been written at the discovered pointer. -/
def measuredCost (env : ModuleEnv) (r : Rnd) (P L S : Int)
    (x : List Nat) : Nat :=
  (env.callSem "fuzz"
    (writeBytes (newHarness r env P L S).store.mem
      (newHarness r env P L S).fuzz_ptr x)
    (newHarness r env P L S).store.gst).cost


/-- Extract the harness from a successful reboot (fallback otherwise). -/
def rbOf (o : Option WasmModule) : WasmModule :=
  o.getD (initialHarness emptyEnv)

/-- The harness state after rebooting `wmC8`. -/
def wrC8 : WasmModule := rbOf (rebootAt 1 rnd1 wmC8)

/-! ## Fuel arithmetic -/

theorem UMAX_eq : UMAX = 18446744073709551615 := by norm_num [UMAX]

theorem strongF_genF {st : Store} (h : StrongF st) : GenF st := by
  obtain ⟨h1, h2, h3⟩ := h
  refine ⟨h1, ?_, h3⟩
  rw [UMAX_eq] at *
  omega

@[simp] theorem addFuel_mem (st : Store) (d : Nat) :
    (addFuel st d).mem = st.mem := rfl

@[simp] theorem addFuel_gst (st : Store) (d : Nat) :
    (addFuel st d).gst = st.gst := rfl

@[simp] theorem topUp_mem (st : Store) : (topUp st).mem = st.mem := rfl

@[simp] theorem topUp_gst (st : Store) : (topUp st).gst = st.gst := rfl

/-- On every fuel state the harness can be in, the
`add_fuel(u64::MAX - fuel_consumed())` top-up saturates and therefore
resets the remaining fuel exactly to `u64::MAX`. -/
theorem topUp_reset {st : Store} (h : PreOK st) :
    topUp st = { st with remaining := UMAX, total := UMAX } := by
  obtain ⟨r, t, m, g⟩ := st
  simp only [topUp, addFuel, fuelConsumed, Store.mk.injEq, and_true, true_and]
  rcases h with ⟨h1, h2⟩ | ⟨h1, h2, h3⟩ <;>
    simp_all only [UMAX_eq] <;> constructor <;> omega

/-! ## `writeInput` inversion -/

theorem writeBytes_length {mem data : List Nat} {ptr : Nat}
    (h : ptr + data.length ≤ mem.length) :
    (writeBytes mem ptr data).length = mem.length := by
  simp only [writeBytes, List.length_append, List.length_take, List.length_drop]
  omega

theorem writeInput_ok {wm : WasmModule} {input : List Nat} {st1 : Store}
    (h : writeInput wm input = .ok st1) :
    wm.fuzz_ptr + input.length ≤ wm.store.mem.length ∧
    st1 = { wm.store with
      mem := writeBytes wm.store.mem wm.fuzz_ptr input } := by
  unfold writeInput memWrite at h
  by_cases hc : wm.fuzz_ptr + input.length ≤ wm.store.mem.length
  · rw [if_pos hc] at h
    simp only [Except.ok.injEq] at h
    exact ⟨hc, h.symm⟩
  · rw [if_neg hc] at h
    simp at h

theorem writeInput_ok_of_fits {wm : WasmModule} {input : List Nat}
    (h : wm.fuzz_ptr + input.length ≤ wm.store.mem.length) :
    writeInput wm input = .ok
      { wm.store with mem := writeBytes wm.store.mem wm.fuzz_ptr input } := by
  unfold writeInput memWrite
  rw [if_pos h]

theorem writeInput_error {wm : WasmModule} {input : List Nat}
    (h : wm.store.mem.length < wm.fuzz_ptr + input.length) :
    writeInput wm input = .error () := by
  unfold writeInput memWrite
  rw [if_neg (by omega)]

/-! ## `count_instructions` case lemmas -/

/-- Successful metered call: the bytes are written, the fuel is reset to
`u64::MAX`, the export runs, and the value returned is
`u64::MAX - cost`, i.e. the *remaining* budget. -/
theorem ci_success (rb : Rnd → WasmModule → Option WasmModule) (rnd : Rnd)
    (wm : WasmModule) (input : List Nat) (st1 : Store) (vs : List Value)
    (hw : writeInput wm input = .ok st1)
    (hpre : PreOK wm.store)
    (hexp : wm.module.funcExports "fuzz" = true)
    (har : wm.module.arity "fuzz" = 0)
    (hres : (wm.module.callSem "fuzz" st1.mem st1.gst).result = .ok vs)
    (hcost : (wm.module.callSem "fuzz" st1.mem st1.gst).cost ≤ 2 ^ 60) :
    count_instructions rb rnd wm input =
      some (.ok (UMAX - (wm.module.callSem "fuzz" st1.mem st1.gst).cost),
        { wm with store :=
          { remaining := UMAX - (wm.module.callSem "fuzz" st1.mem st1.gst).cost,
            total := UMAX,
            mem := (wm.module.callSem "fuzz" st1.mem st1.gst).mem,
            gst := (wm.module.callSem "fuzz" st1.mem st1.gst).gst } }) := by
  have hpre1 : PreOK st1 := by
    obtain ⟨-, h2⟩ := writeInput_ok hw
    subst h2
    exact hpre
  rcases hout : wm.module.callSem "fuzz" st1.mem st1.gst with ⟨resO, memO, gstO, costO⟩
  rw [hout] at hres hcost
  dsimp only at hres hcost
  subst hres
  unfold count_instructions callFunc
  rw [hw]
  dsimp only
  rw [topUp_reset hpre1]
  dsimp only
  rw [hout]
  dsimp only
  simp only [hexp, har, eq_self_iff_true, if_true]
  rw [if_pos (le_trans hcost (by rw [UMAX_eq]; omega))]
  dsimp only
  simp only [fuelConsumed, Option.some.injEq, Prod.mk.injEq, Except.ok.injEq,
    WasmModule.mk.injEq, Store.mk.injEq, and_true, true_and]
  rw [UMAX_eq] at *
  omega

/-- Failed metered call (engine error `err`, fuel sufficient): the error is
wrapped in `WasmError` and returned; the reboot controller runs if and only
if the trap kind is `MemoryOutOfBounds`. -/
theorem ci_error (rb : Rnd → WasmModule → Option WasmModule) (rnd : Rnd)
    (wm : WasmModule) (input : List Nat) (st1 st3 : Store) (err : WasmiError)
    (hw : writeInput wm input = .ok st1)
    (hexp : wm.module.funcExports "fuzz" = true)
    (hcall : callFunc wm.module "fuzz" 0 (topUp st1) = (.error err, st3)) :
    count_instructions rb rnd wm input =
      if err = WasmiError.trap .memoryOutOfBounds then
        (rb rnd { wm with store := st3 }).map
          (fun wr => (.error (.WasmError err), wr))
      else some (.error (.WasmError err), { wm with store := st3 }) := by
  unfold count_instructions
  rw [hw]
  dsimp only
  simp only [hexp, eq_self_iff_true, if_true]
  rw [hcall]
  dsimp only
  by_cases hoob : err = WasmiError.trap .memoryOutOfBounds
  · rw [if_pos hoob, if_pos hoob]
    cases rb rnd { wm with store := st3 } <;> rfl
  · rw [if_neg hoob, if_neg hoob]

/-- Failed memory write: `MemorySetError` is returned and the harness is
untouched. -/
theorem ci_memfail (rb : Rnd → WasmModule → Option WasmModule) (rnd : Rnd)
    (wm : WasmModule) (input : List Nat)
    (hw : writeInput wm input = .error ()) :
    count_instructions rb rnd wm input = some (.error .MemorySetError, wm) := by
  unfold count_instructions
  rw [hw]

/-! ## Frame lemmas: the descriptor and retained bytes are untouched -/

/-- `reboot` copies only `store`/`instance`/`memory`; the retained module
bytes and the resolved input descriptor survive unchanged. -/
theorem rebootAt_frame {d : Nat} {rnd : Rnd} {wm wr : WasmModule}
    (h : rebootAt d rnd wm = some wr) :
    wr.module = wm.module ∧ wr.fuzz_ptr = wm.fuzz_ptr ∧
    wr.fuzz_len = wm.fuzz_len ∧ wr.input_is_str = wm.input_is_str := by
  cases d with
  | zero => simp [rebootAt] at h
  | succ d =>
    unfold rebootAt at h
    split at h
    · rename_i fresh heq
      obtain rfl : { wm with store := fresh.store } = wr := by
        simpa using h
      exact ⟨rfl, rfl, rfl, rfl⟩
    · simp at h

/-- `count_instructions` never changes the retained bytes or the input
descriptor, provided its reboot routine does not either. -/
theorem ci_frame {rb : Rnd → WasmModule → Option WasmModule} {rnd : Rnd}
    {wm : WasmModule} {input : List Nat}
    {res : Except SideFuzzError Nat} {wm' : WasmModule}
    (hrbf : ∀ rnd w wr, rb rnd w = some wr →
      wr.module = w.module ∧ wr.fuzz_ptr = w.fuzz_ptr ∧
      wr.fuzz_len = w.fuzz_len ∧ wr.input_is_str = w.input_is_str)
    (h : count_instructions rb rnd wm input = some (res, wm')) :
    wm'.module = wm.module ∧ wm'.fuzz_ptr = wm.fuzz_ptr ∧
    wm'.fuzz_len = wm.fuzz_len ∧ wm'.input_is_str = wm.input_is_str := by
  unfold count_instructions at h
  split at h
  · simp only [Option.some.injEq, Prod.mk.injEq] at h
    obtain ⟨-, rfl⟩ := h
    exact ⟨rfl, rfl, rfl, rfl⟩
  · dsimp only at h
    split at h
    · split at h
      · rename_i err st3 heqcall
        split at h
        · split at h
          · rename_i wr hwr
            simp only [Option.some.injEq, Prod.mk.injEq] at h
            obtain ⟨-, rfl⟩ := h
            exact hrbf rnd { wm with store := st3 } wr hwr
          · simp at h
        · simp only [Option.some.injEq, Prod.mk.injEq] at h
          obtain ⟨-, rfl⟩ := h
          exact ⟨rfl, rfl, rfl, rfl⟩
      · simp only [Option.some.injEq, Prod.mk.injEq] at h
        obtain ⟨-, rfl⟩ := h
        exact ⟨rfl, rfl, rfl, rfl⟩
    · simp only [Option.some.injEq, Prod.mk.injEq] at h
      obtain ⟨-, rfl⟩ := h
      exact ⟨rfl, rfl, rfl, rfl⟩

/-- `ci_frame` at a fixed reboot depth. -/
theorem ciAt_frame {d : Nat} {rnd : Rnd} {wm : WasmModule} {input : List Nat}
    {res : Except SideFuzzError Nat} {wm' : WasmModule}
    (h : count_instructionsAt d rnd wm input = some (res, wm')) :
    wm'.module = wm.module ∧ wm'.fuzz_ptr = wm.fuzz_ptr ∧
    wm'.fuzz_len = wm.fuzz_len ∧ wm'.input_is_str = wm.input_is_str :=
  ci_frame (fun _ _ _ h' => rebootAt_frame h') h

/-! ## Invariants threaded through construction, priming and reboot -/

theorem callFunc_inv {env : ModuleEnv} {name : String} {n : Nat}
    {st st' : Store} {r : Except WasmiError (List Value)}
    (h : callFunc env name n st = (r, st')) :
    st'.total = st.total ∧ st'.remaining ≤ st.remaining ∧
    st.remaining - (env.callSem name st.mem st.gst).cost ≤ st'.remaining ∧
    (st'.mem = (env.callSem name st.mem st.gst).mem ∨ st'.mem = st.mem) := by
  unfold callFunc at h
  split at h
  · dsimp only at h
    split at h
    · split at h <;>
        · simp only [Prod.mk.injEq] at h
          obtain ⟨-, rfl⟩ := h
          refine ⟨rfl, ?_, ?_, Or.inl rfl⟩ <;> dsimp only <;> omega
    · rename_i hfuel
      simp only [Prod.mk.injEq] at h
      obtain ⟨-, rfl⟩ := h
      refine ⟨rfl, ?_, ?_, Or.inr rfl⟩ <;> dsimp only <;> omega
  · simp only [Prod.mk.injEq] at h
    obtain ⟨-, rfl⟩ := h
    exact ⟨rfl, le_refl _, by omega, Or.inr rfl⟩

theorem callFunc_state {env : ModuleEnv} {name : String} {n : Nat}
    {st st' : Store} {r : Except WasmiError (List Value)}
    (h : callFunc env name n st = (r, st'))
    (hcost : (env.callSem name st.mem st.gst).cost ≤ 2 ^ 60)
    (hlen : (env.callSem name st.mem st.gst).mem.length = st.mem.length) :
    st'.total = st.total ∧ st'.remaining ≤ st.remaining ∧
    st.remaining - 2 ^ 60 ≤ st'.remaining ∧
    st'.mem.length = st.mem.length := by
  obtain ⟨h1, h2, h3, h4⟩ := callFunc_inv h
  refine ⟨h1, h2, by omega, ?_⟩
  rcases h4 with h4 | h4 <;> rw [h4]
  exact hlen

/-- Invariant step for one `count_instructions` call: either the memory
write failed and nothing changed, or the resulting harness is freshly
metered (`StrongF`) with its memory size intact. -/
theorem ci_post {rb : Rnd → WasmModule → Option WasmModule} {rnd : Rnd}
    {wm : WasmModule} {input : List Nat}
    {res : Except SideFuzzError Nat} {wm' : WasmModule}
    (hrb : ∀ rnd w wr, rb rnd w = some wr → EnvOK w.module →
      StrongF wr.store ∧ MemLenInv wr)
    (henv : EnvOK wm.module) (hpre : PreOK wm.store) (hml : MemLenInv wm)
    (h : count_instructions rb rnd wm input = some (res, wm')) :
    (res = .error .MemorySetError ∧ wm' = wm ∧
      writeInput wm input = .error ()) ∨
    (StrongF wm'.store ∧ MemLenInv wm') := by
  unfold count_instructions at h
  split at h
  · rename_i a heqw
    simp only [Option.some.injEq, Prod.mk.injEq] at h
    obtain ⟨rfl, rfl⟩ := h
    cases a
    exact Or.inl ⟨rfl, rfl, heqw⟩
  · rename_i st1 heqw
    obtain ⟨hfit, hst1⟩ := writeInput_ok heqw
    have hpre1 : PreOK st1 := by rw [hst1]; exact hpre
    have hlen1 : st1.mem.length = wm.store.mem.length := by
      rw [hst1]; exact writeBytes_length hfit
    dsimp only at h
    rw [topUp_reset hpre1] at h
    have hcost := (henv.1 st1.mem st1.gst).1
    have hmlen := (henv.2 st1.mem st1.gst).1
    split at h
    · split at h
      · rename_i err st3 heqcall
        have hst3 := callFunc_state heqcall hcost hmlen
        dsimp only at hst3
        split at h
        · split at h
          · rename_i wr hwr
            simp only [Option.some.injEq, Prod.mk.injEq] at h
            obtain ⟨-, rfl⟩ := h
            exact Or.inr (hrb rnd { wm with store := st3 } _ hwr henv)
          · simp at h
        · simp only [Option.some.injEq, Prod.mk.injEq] at h
          obtain ⟨-, rfl⟩ := h
          refine Or.inr ⟨⟨hst3.1, ?_, ?_⟩, ?_⟩
          · show UMAX - 2 ^ 60 ≤ st3.remaining
            have := hst3.2.2.1
            omega
          · show st3.remaining ≤ UMAX
            have := hst3.2.1
            omega
          · show st3.mem.length = wm.module.initMem.length
            rw [hst3.2.2.2, hlen1, hml]
      · rename_i a st3 heqcall
        have hst3 := callFunc_state heqcall hcost hmlen
        dsimp only at hst3
        simp only [Option.some.injEq, Prod.mk.injEq] at h
        obtain ⟨-, rfl⟩ := h
        refine Or.inr ⟨⟨hst3.1, ?_, ?_⟩, ?_⟩
        · show UMAX - 2 ^ 60 ≤ st3.remaining
          have := hst3.2.2.1
          omega
        · show st3.remaining ≤ UMAX
          have := hst3.2.1
          omega
        · show st3.mem.length = wm.module.initMem.length
          rw [hst3.2.2.2, hlen1, hml]
    · simp only [Option.some.injEq, Prod.mk.injEq] at h
      obtain ⟨-, rfl⟩ := h
      refine Or.inr ⟨⟨rfl, ?_, le_refl _⟩, ?_⟩
      · show UMAX - 2 ^ 60 ≤ UMAX
        omega
      · show st1.mem.length = wm.module.initMem.length
        rw [hlen1, hml]

/-- Invariant for the priming loop: a successful `prime_lazy_statics`
leaves a freshly metered harness with descriptor and bytes untouched. -/
theorem prime_post
    (ci : Rnd → WasmModule → List Nat →
      Option (Except SideFuzzError Nat × WasmModule))
    (hciA : ∀ rnd w input res w', ci rnd w input = some (res, w') →
      EnvOK w.module → PreOK w.store → MemLenInv w →
      (res = .error .MemorySetError ∧ w' = w ∧
        writeInput w input = .error ()) ∨
      (StrongF w'.store ∧ MemLenInv w'))
    (hciM : ∀ rnd w input res w', ci rnd w input = some (res, w') →
      w'.module = w.module ∧ w'.fuzz_ptr = w.fuzz_ptr ∧
      w'.fuzz_len = w.fuzz_len ∧ w'.input_is_str = w.input_is_str)
    {rnd : Rnd} {wm w : WasmModule} {i fuel : Nat}
    (h : prime_lazy_statics ci rnd wm i fuel = some (.ok w))
    (henv : EnvOK wm.module) (hpre : PreOK wm.store) (hml : MemLenInv wm) :
    (StrongF w.store ∧ MemLenInv w) ∧
    (w.module = wm.module ∧ w.fuzz_ptr = wm.fuzz_ptr ∧
      w.fuzz_len = wm.fuzz_len ∧ w.input_is_str = wm.input_is_str) := by
  induction fuel generalizing wm i with
  | zero => simp [prime_lazy_statics] at h
  | succ fuel ih =>
    unfold prime_lazy_statics at h
    dsimp only at h
    split at h
    · exact absurd h (by simp)
    · rename_i c wm'' heq
      simp only [Option.some.injEq, Except.ok.injEq] at h
      subst h
      rcases hciA rnd wm _ _ _ heq henv hpre hml with ⟨hbad, -, -⟩ | hstrong
      · exact absurd hbad (by simp)
      · exact ⟨hstrong, hciM rnd wm _ _ _ heq⟩
    · rename_i e wm'' heq
      split at h
      · simp at h
      · have hd := hciA rnd wm _ _ _ heq henv hpre hml
        have hm := hciM rnd wm _ _ _ heq
        have hpre' : PreOK wm''.store := by
          rcases hd with ⟨-, rfl, -⟩ | ⟨hs, -⟩
          · exact hpre
          · exact Or.inr (strongF_genF hs)
        have hml' : MemLenInv wm'' := by
          rcases hd with ⟨-, rfl, -⟩ | ⟨-, hs⟩
          · exact hml
          · exact hs
        have henv' : EnvOK wm''.module := by rw [hm.1]; exact henv
        obtain ⟨hsw, hf⟩ := ih h henv' hpre' hml'
        refine ⟨hsw, ?_, ?_, ?_, ?_⟩
        · rw [hf.1, hm.1]
        · rw [hf.2.1, hm.2.1]
        · rw [hf.2.2.1, hm.2.2.1]
        · rw [hf.2.2.2, hm.2.2.2]

/-- Invariant for `set_input_pointer`: on success the harness is at a rest
point (`GenF`) with its memory size intact and its bytes untouched. -/
theorem sip_post
    (ci : Rnd → WasmModule → List Nat →
      Option (Except SideFuzzError Nat × WasmModule))
    (hciA : ∀ rnd w input res w', ci rnd w input = some (res, w') →
      EnvOK w.module → PreOK w.store → MemLenInv w →
      (res = .error .MemorySetError ∧ w' = w ∧
        writeInput w input = .error ()) ∨
      (StrongF w'.store ∧ MemLenInv w'))
    (hciM : ∀ rnd w input res w', ci rnd w input = some (res, w') →
      w'.module = w.module ∧ w'.fuzz_ptr = w.fuzz_ptr ∧
      w'.fuzz_len = w.fuzz_len ∧ w'.input_is_str = w.input_is_str)
    {rnd : Rnd} {wm0 wm1 : WasmModule}
    (h : set_input_pointer ci rnd wm0 = some (.ok wm1))
    (henv : EnvOK wm0.module) (hInit : InitF wm0.store)
    (hml : MemLenInv wm0) (hptr : wm0.fuzz_ptr = 0) :
    GenF wm1.store ∧ MemLenInv wm1 ∧ wm1.module = wm0.module := by
  unfold set_input_pointer at h
  split at h
  · exact absurd h (by simp)
  · rename_i r0 wmA heq0
    have hwA : writeInput wm0 [] =
        .ok { wm0.store with mem := writeBytes wm0.store.mem wm0.fuzz_ptr [] } :=
      writeInput_ok_of_fits (by rw [hptr]; simp)
    have hSA : StrongF wmA.store ∧ MemLenInv wmA := by
      rcases hciA rnd wm0 [] _ _ heq0 henv (Or.inl hInit) hml with ⟨-, -, hbad⟩ | h'
      · rw [hwA] at hbad
        exact absurd hbad (by simp)
      · exact h'
    have hAm := hciM rnd wm0 [] _ _ heq0
    split at h
    · split at h
      · simp at h
      · rename_i ptrVals st2 heq1
        have hcost1 : (wmA.module.callSem "input_pointer" wmA.store.mem wmA.store.gst).cost ≤ 2 ^ 60 := by
          rw [hAm.1]
          exact (henv.1 _ _).2.1
        have hlen1 : (wmA.module.callSem "input_pointer" wmA.store.mem wmA.store.gst).mem.length = wmA.store.mem.length := by
          rw [hAm.1]
          exact (henv.2 _ _).2.1
        have hst2 := callFunc_state heq1 hcost1 hlen1
        try dsimp only at h
        split at h
        · split at h
          · simp at h
          · rename_i lenVals st3 heq2
            have hcost2 : (wmA.module.callSem "input_len" st2.mem st2.gst).cost ≤ 2 ^ 60 := by
              rw [hAm.1]
              exact (henv.1 _ _).2.2.1
            have hlen2 : (wmA.module.callSem "input_len" st2.mem st2.gst).mem.length = st2.mem.length := by
              rw [hAm.1]
              exact (henv.2 _ _).2.2.1
            have hst3 := callFunc_state heq2 hcost2 hlen2
            try dsimp only at h
            split at h
            · split at h
              · simp at h
              · rename_i strVals st4 heq3
                have hcost3 : (wmA.module.callSem "input_is_str" st3.mem st3.gst).cost ≤ 2 ^ 60 := by
                  rw [hAm.1]
                  exact (henv.1 _ _).2.2.2
                have hlen3 : (wmA.module.callSem "input_is_str" st3.mem st3.gst).mem.length = st3.mem.length := by
                  rw [hAm.1]
                  exact (henv.2 _ _).2.2.2
                have hst4 := callFunc_state heq3 hcost3 hlen3
                try dsimp only at h
                split at h
                · split at h
                  · split at h
                    · simp at h
                    · split at h
                      · rename_i s hs
                        simp only [Option.some.injEq, Except.ok.injEq] at h
                        subst h
                        obtain ⟨hA1, hA2, hA3⟩ := hSA.1
                        refine ⟨⟨?_, ?_, ?_⟩, ?_, ?_⟩
                        · show st4.total = UMAX
                          rw [hst4.1, hst3.1, hst2.1, hA1]
                        · show UMAX - 2 ^ 62 ≤ st4.remaining
                          have b2 := hst2.2.1
                          have b2' := hst2.2.2.1
                          have b3 := hst3.2.1
                          have b3' := hst3.2.2.1
                          have b4 := hst4.2.1
                          have b4' := hst4.2.2.1
                          rw [UMAX_eq] at *
                          omega
                        · show st4.remaining ≤ UMAX
                          have := hst2.2.1
                          have := hst3.2.1
                          have := hst4.2.1
                          omega
                        · show st4.mem.length = _
                          rw [hst4.2.2.2, hst3.2.2.2, hst2.2.2.2]
                          dsimp only
                          exact hSA.2
                        · exact hAm.1
                      · simp at h
                  · simp at h
                · simp at h
            · simp at h
        · simp at h
    · simp at h

/-- Invariant for `WasmModule::new`: a successfully constructed harness is
freshly metered, its memory has the module's size, and it carries the
module it was built from. -/
theorem new_post
    (ci : Rnd → WasmModule → List Nat →
      Option (Except SideFuzzError Nat × WasmModule))
    (hciA : ∀ rnd w input res w', ci rnd w input = some (res, w') →
      EnvOK w.module → PreOK w.store → MemLenInv w →
      (res = .error .MemorySetError ∧ w' = w ∧
        writeInput w input = .error ()) ∨
      (StrongF w'.store ∧ MemLenInv w'))
    (hciM : ∀ rnd w input res w', ci rnd w input = some (res, w') →
      w'.module = w.module ∧ w'.fuzz_ptr = w.fuzz_ptr ∧
      w'.fuzz_len = w.fuzz_len ∧ w'.input_is_str = w.input_is_str)
    {rnd : Rnd} {env : ModuleEnv} {fresh : WasmModule}
    (h : newWith ci rnd env = some (.ok fresh)) (henv : EnvOK env) :
    StrongF fresh.store ∧ MemLenInv fresh ∧ fresh.module = env := by
  unfold newWith at h
  split at h
  · split at h
    · split at h
      · split at h
        · exact absurd h (by simp)
        · simp at h
        · rename_i wm1 heqsip
          have hs := sip_post ci hciA hciM heqsip henv ⟨rfl, rfl⟩ rfl rfl
          have hp := prime_post ci hciA hciM h
            (by rw [hs.2.2]; exact henv) (Or.inr hs.1) hs.2.1
          refine ⟨hp.1.1, hp.1.2, ?_⟩
          rw [hp.2.1, hs.2.2]
          rfl
      · simp at h
    · simp at h
  · simp at h

/-- Reboot invariant: a successful reboot hands back a freshly metered
harness with its memory at the module's size. -/
theorem rebootAt_strong (d : Nat) :
    ∀ {rnd : Rnd} {wm wr : WasmModule}, rebootAt d rnd wm = some wr →
      EnvOK wm.module → StrongF wr.store ∧ MemLenInv wr := by
  induction d with
  | zero => intro rnd wm wr h _; simp [rebootAt] at h
  | succ d ih =>
    intro rnd wm wr h henv
    unfold rebootAt at h
    split at h
    · rename_i fresh heqnew
      simp only [Option.some.injEq] at h
      subst h
      have hciA : ∀ rnd w input res w',
          count_instructions (rebootAt d) rnd w input = some (res, w') →
          EnvOK w.module → PreOK w.store → MemLenInv w →
          (res = .error .MemorySetError ∧ w' = w ∧
            writeInput w input = .error ()) ∨
          (StrongF w'.store ∧ MemLenInv w') :=
        fun rnd w input res w' hc he hp hm =>
          ci_post (fun _ _ _ hr he2 => ih hr he2) he hp hm hc
      have hciM : ∀ rnd w input res w',
          count_instructions (rebootAt d) rnd w input = some (res, w') →
          w'.module = w.module ∧ w'.fuzz_ptr = w.fuzz_ptr ∧
          w'.fuzz_len = w.fuzz_len ∧ w'.input_is_str = w.input_is_str :=
        fun rnd w input res w' hc =>
          ci_frame (fun _ _ _ h' => rebootAt_frame h') hc
      obtain ⟨h1, h2, h3⟩ := new_post (count_instructions (rebootAt d)) hciA hciM heqnew henv
      refine ⟨h1, ?_⟩
      show fresh.store.mem.length = wm.module.initMem.length
      rw [← h3]
      exact h2
    · simp at h

/-- `ci_post` at a fixed reboot depth. -/
theorem ciAt_post {d : Nat} {rnd : Rnd} {wm : WasmModule} {input : List Nat}
    {res : Except SideFuzzError Nat} {wm' : WasmModule}
    (henv : EnvOK wm.module) (hpre : PreOK wm.store) (hml : MemLenInv wm)
    (h : count_instructionsAt d rnd wm input = some (res, wm')) :
    (res = .error .MemorySetError ∧ wm' = wm ∧
      writeInput wm input = .error ()) ∨
    (StrongF wm'.store ∧ MemLenInv wm') :=
  ci_post (fun _ _ _ hr he => rebootAt_strong d hr he) henv hpre hml h

/-! ## List and integer-cast helpers -/

theorem writeBytes_nil (mem : List Nat) : writeBytes mem 0 [] = mem := by
  simp [writeBytes]

theorem genInput_length (s : Nat → Nat) (n : Nat) :
    (genInput s n).length = n := by
  simp [genInput]

/-- The written window of a successful write is exactly the input. -/
theorem writeBytes_window {mem data : List Nat} {ptr : Nat}
    (h : ptr + data.length ≤ mem.length) :
    ((writeBytes mem ptr data).drop ptr).take data.length = data := by
  unfold writeBytes
  rw [List.append_assoc]
  generalize hpre : mem.take ptr = pre
  have hlen : ptr = pre.length := by
    rw [← hpre, List.length_take]
    omega
  rw [hlen, List.drop_left, List.take_left]

theorem toU32_of_nonneg {L : Int} (h0 : 0 ≤ L) (h1 : L < 2 ^ 32) :
    toU32 L = L.toNat := by
  unfold toU32
  omega

theorem toU32_of_neg {L : Int} (h0 : -(2 ^ 31) ≤ L) (h1 : L < 0) :
    toU32 L = (L + 2 ^ 32).toNat := by
  unfold toU32
  omega

theorem toU32_big_of_neg {L : Int} (h0 : -(2 ^ 31) ≤ L) (h1 : L < 0) :
    1024 < toU32 L := by
  unfold toU32
  omega

/-! ## Convention-following modules -/

theorem Convention.envOK {env : ModuleEnv} {P L S : Int}
    (hc : Convention env P L S) : EnvOK env := by
  refine ⟨fun m g => ⟨hc.fuzzCost m g, ?_, ?_, ?_⟩,
    fun m g => ⟨hc.fuzzMemLen m g, ?_, ?_, ?_⟩⟩ <;>
    simp [hc.ptrSem, hc.lenSem, hc.strSem]

/-- Invoking a pure zero-cost getter leaves the store untouched. -/
theorem callFunc_getter {env : ModuleEnv} {name : String} {st : Store}
    {vs : List Value} (har : env.arity name = 1)
    (hsem : env.callSem name st.mem st.gst = ⟨.ok vs, st.mem, st.gst, 0⟩) :
    callFunc env name 1 st = (.ok vs, st) := by
  unfold callFunc
  simp only [har, hsem, eq_self_iff_true, if_true]
  try dsimp only
  rw [if_pos (Nat.zero_le _)]
  obtain ⟨r, t, m, g⟩ := st
  dsimp only
  simp

/-- Symbolic run of `set_input_pointer` on a convention-following module
with declared length at most 1024: the descriptor is populated from the
three getters, and the store is exactly the one left behind by the initial
(discarded) `count_instructions` call on empty input. -/
theorem sip_conv (d : Nat) (rnd : Rnd) {env : ModuleEnv} {P L S : Int}
    (hc : Convention env P L S) (hL : L ≤ 1024) :
    set_input_pointerAt d rnd (initialHarness env) = some (.ok
      { module := env,
        store :=
          { remaining := UMAX - (env.callSem "fuzz" env.initMem env.initGst).cost,
            total := UMAX,
            mem := (env.callSem "fuzz" env.initMem env.initGst).mem,
            gst := (env.callSem "fuzz" env.initMem env.initGst).gst },
        fuzz_ptr := toUsize P, fuzz_len := toU32 L,
        input_is_str := decide (0 < S) }) := by
  have hw : writeInput (initialHarness env) [] = .ok (initialStore env) := by
    unfold writeInput memWrite initialHarness initialStore
    simp [writeBytes]
  have hci := ci_success (rebootAt d) rnd (initialHarness env) []
    (initialStore env) [] hw (Or.inl ⟨rfl, rfl⟩) hc.fuzzExp hc.fuzzAr
    (hc.fuzzRes _ _) (hc.fuzzCost _ _)
  unfold set_input_pointerAt count_instructionsAt set_input_pointer
  simp only [initialHarness, initialStore] at hci ⊢
  rw [hci]
  try dsimp only
  simp only [hc.ptrExp, hc.lenExp, hc.strExp, eq_self_iff_true, if_true]
  rw [callFunc_getter hc.ptrAr (hc.ptrSem _ _)]
  try dsimp only
  rw [callFunc_getter hc.lenAr (hc.lenSem _ _)]
  try dsimp only
  rw [callFunc_getter hc.strAr (hc.strSem _ _)]
  simp only [List.headD_cons]
  try dsimp only
  rw [if_neg (not_lt.mpr hL)]

/-- Symbolic run of `set_input_pointer` when the declared length exceeds
1024: the resolver fails with `FuzzLenTooLong` carrying the `as u32` cast
of the declared length. -/
theorem sip_conv_fail (d : Nat) (rnd : Rnd) {env : ModuleEnv} {P L S : Int}
    (hc : Convention env P L S) (hL : 1024 < L) :
    set_input_pointerAt d rnd (initialHarness env) =
      some (.error (.FuzzLenTooLong (toU32 L))) := by
  have hw : writeInput (initialHarness env) [] = .ok (initialStore env) := by
    unfold writeInput memWrite initialHarness initialStore
    simp [writeBytes]
  have hci := ci_success (rebootAt d) rnd (initialHarness env) []
    (initialStore env) [] hw (Or.inl ⟨rfl, rfl⟩) hc.fuzzExp hc.fuzzAr
    (hc.fuzzRes _ _) (hc.fuzzCost _ _)
  unfold set_input_pointerAt count_instructionsAt set_input_pointer
  simp only [initialHarness, initialStore] at hci ⊢
  rw [hci]
  try dsimp only
  simp only [hc.ptrExp, hc.lenExp, hc.strExp, eq_self_iff_true, if_true]
  rw [callFunc_getter hc.ptrAr (hc.ptrSem _ _)]
  try dsimp only
  rw [callFunc_getter hc.lenAr (hc.lenSem _ _)]
  try dsimp only
  rw [callFunc_getter hc.strAr (hc.strSem _ _)]
  simp only [List.headD_cons]
  try dsimp only
  rw [if_pos hL]

/-- Symbolic run of `WasmModule::new` on a convention-following module with
declared length at most 1024 that fits the linear memory: construction
succeeds and produces exactly `newHarness`. -/
theorem new_conv (d : Nat) (rnd : Rnd) {env : ModuleEnv} {P L S : Int}
    (hc : Convention env P L S) (hL : L ≤ 1024)
    (hfit : toUsize P + toU32 L ≤ env.initMem.length) :
    newAt d rnd env = some (.ok (newHarness rnd env P L S)) := by
  have hsip := sip_conv d rnd hc hL
  unfold set_input_pointerAt at hsip
  unfold newAt newWith
  simp only [hc.inst, hc.hasMem, hc.isMem, if_true]
  rw [hsip]
  try dsimp only
  rw [show (100 : Nat) = 99 + 1 from rfl]
  unfold prime_lazy_statics
  try dsimp only
  have hw : writeInput
      { module := env,
        store :=
          { remaining := UMAX - (env.callSem "fuzz" env.initMem env.initGst).cost,
            total := UMAX,
            mem := (env.callSem "fuzz" env.initMem env.initGst).mem,
            gst := (env.callSem "fuzz" env.initMem env.initGst).gst },
        fuzz_ptr := toUsize P, fuzz_len := toU32 L,
        input_is_str := decide (0 < S) } (genInput (rnd 0) (toU32 L)) = .ok
      { remaining := UMAX - (env.callSem "fuzz" env.initMem env.initGst).cost,
        total := UMAX,
        mem := writeBytes (env.callSem "fuzz" env.initMem env.initGst).mem
          (toUsize P) (genInput (rnd 0) (toU32 L)),
        gst := (env.callSem "fuzz" env.initMem env.initGst).gst } :=
    writeInput_ok_of_fits (by
      dsimp only
      rw [genInput_length, hc.fuzzMemLen]
      exact hfit)
  have hpre : PreOK
      ({ remaining := UMAX - (env.callSem "fuzz" env.initMem env.initGst).cost,
         total := UMAX,
         mem := (env.callSem "fuzz" env.initMem env.initGst).mem,
         gst := (env.callSem "fuzz" env.initMem env.initGst).gst } : Store) := by
    refine Or.inr ⟨rfl, ?_, ?_⟩ <;>
      · have := hc.fuzzCost env.initMem env.initGst
        dsimp only
        rw [UMAX_eq] at *
        omega
  have hci := ci_success (rebootAt d) rnd _ (genInput (rnd 0) (toU32 L)) _ []
    hw hpre hc.fuzzExp hc.fuzzAr (hc.fuzzRes _ _) (hc.fuzzCost _ _)
  unfold count_instructionsAt
  rw [hci]
  try dsimp only
  rfl

/-! ## Claim theorems -/

/-- C1 (amended): for an input of length at most the discovered length (and
fitting the linear memory), `count_instructions` writes the bytes at the
discovered pointer, resets the metering budget to `u64::MAX`, invokes the
`"fuzz"` export, and returns `u64::MAX - consumed` — the *remaining*
metering budget (u64::MAX minus the units consumed by that single call),
not the consumed units themselves. -/
theorem c1_theorem (d : Nat) (rnd : Rnd) (wm : WasmModule) (input : List Nat)
    (st1 : Store) (vs : List Value)
    (hlen : input.length ≤ wm.fuzz_len)
    (hw : writeInput wm input = .ok st1)
    (hpre : PreOK wm.store)
    (hexp : wm.module.funcExports "fuzz" = true)
    (har : wm.module.arity "fuzz" = 0)
    (hres : (wm.module.callSem "fuzz" st1.mem st1.gst).result = .ok vs)
    (hcost : (wm.module.callSem "fuzz" st1.mem st1.gst).cost ≤ 2 ^ 60) :
    st1.mem = writeBytes wm.store.mem wm.fuzz_ptr input ∧
    count_instructionsAt d rnd wm input =
      some (.ok (UMAX - (wm.module.callSem "fuzz" st1.mem st1.gst).cost),
        { wm with store :=
          { remaining := UMAX - (wm.module.callSem "fuzz" st1.mem st1.gst).cost,
            total := UMAX,
            mem := (wm.module.callSem "fuzz" st1.mem st1.gst).mem,
            gst := (wm.module.callSem "fuzz" st1.mem st1.gst).gst } }) := by
  refine ⟨?_, ?_⟩
  · rw [(writeInput_ok hw).2]
  · exact ci_success (rebootAt d) rnd wm input st1 vs hw hpre hexp har hres hcost

/-- C1 counterexample: on the constructed harness `wmA` (whose `"fuzz"`
call consumes exactly 5 metering units, as the final store confirms:
`fuel_consumed = 5`), `count_instructions` on the in-bounds input `[9]`
returns `u64::MAX - 5`, not the 5 units the call consumed. -/
theorem c1_counterexample :
    (count_instructionsAt 1 rnd1 wmA [9]).map (fun p => (p.1, fuelConsumed p.2.store)) =
      some (.ok (UMAX - 5), 5) ∧ UMAX - 5 ≠ 5 := by
  exact ⟨rfl, by decide⟩

/-- Witness for `c1_theorem` at a concrete instance. -/
theorem c1_witness :
    ({ remaining := UMAX - 5, total := UMAX, mem := [9, 1, 0, 0, 0, 0, 0, 0],
       gst := 0 } : Store).mem = writeBytes wmA.store.mem wmA.fuzz_ptr [9] ∧
    count_instructionsAt 0 rnd1 wmA [9] = some (.ok (UMAX - 5),
      { wmA with store :=
        { remaining := UMAX - 5, total := UMAX,
          mem := [9, 1, 0, 0, 0, 0, 0, 0], gst := 0 } }) := by
  exact c1_theorem 0 rnd1 wmA [9]
    { remaining := UMAX - 5, total := UMAX, mem := [9, 1, 0, 0, 0, 0, 0, 0],
      gst := 0 } []
    (by decide) rfl (Or.inr ⟨rfl, by decide, by decide⟩) rfl rfl rfl (by decide)

/-- C3 (amended): `count_instructions` performs no check of the input
length against the discovered length.  Even when the input is strictly
longer than `fuzz_len`, the full input is written at the discovered pointer
and the call proceeds, as long as the write fits the *linear memory*; the
only write bound enforced is the memory's own size, violation of which
yields `MemorySetError` (before any write). -/
theorem c3_theorem (d : Nat) (rnd : Rnd) (wm : WasmModule) (input : List Nat)
    (vs : List Value)
    (hlong : wm.fuzz_len < input.length)
    (hpre : PreOK wm.store)
    (hexp : wm.module.funcExports "fuzz" = true)
    (har : wm.module.arity "fuzz" = 0)
    (hres : (wm.module.callSem "fuzz"
      (writeBytes wm.store.mem wm.fuzz_ptr input) wm.store.gst).result = .ok vs)
    (hcost : (wm.module.callSem "fuzz"
      (writeBytes wm.store.mem wm.fuzz_ptr input) wm.store.gst).cost ≤ 2 ^ 60) :
    (wm.fuzz_ptr + input.length ≤ wm.store.mem.length →
      count_instructionsAt d rnd wm input = some
        (.ok (UMAX - (wm.module.callSem "fuzz"
            (writeBytes wm.store.mem wm.fuzz_ptr input) wm.store.gst).cost),
          { wm with store :=
            { remaining := UMAX - (wm.module.callSem "fuzz"
                (writeBytes wm.store.mem wm.fuzz_ptr input) wm.store.gst).cost,
              total := UMAX,
              mem := (wm.module.callSem "fuzz"
                (writeBytes wm.store.mem wm.fuzz_ptr input) wm.store.gst).mem,
              gst := (wm.module.callSem "fuzz"
                (writeBytes wm.store.mem wm.fuzz_ptr input) wm.store.gst).gst } })) ∧
    (wm.store.mem.length < wm.fuzz_ptr + input.length →
      count_instructionsAt d rnd wm input = some (.error .MemorySetError, wm)) := by
  constructor
  · intro hfits
    exact ci_success (rebootAt d) rnd wm input _ vs
      (writeInput_ok_of_fits hfits) hpre hexp har hres hcost
  · intro hover
    exact ci_memfail (rebootAt d) rnd wm input (writeInput_error hover)

/-- C3 counterexample: `wmA`'s discovered input length is 2, yet
`count_instructions` accepts the 5-byte input `[9,9,9,9,9]` and writes all
five bytes at the discovered pointer — three bytes beyond the discovered
buffer — before running `"fuzz"` successfully.  Nothing is rejected or
truncated. -/
theorem c3_counterexample :
    wmA.fuzz_len = 2 ∧
    (count_instructionsAt 1 rnd1 wmA [9, 9, 9, 9, 9]).map (fun p => (p.1, p.2.store.mem)) =
      some (.ok (UMAX - 5), [9, 9, 9, 9, 9, 0, 0, 0]) := by
  exact ⟨rfl, rfl⟩

/-- Witness for `c3_theorem` at a concrete instance. -/
theorem c3_witness :
    (wmA.fuzz_ptr + ([9, 9, 9, 9, 9] : List Nat).length ≤ wmA.store.mem.length →
      count_instructionsAt 0 rnd1 wmA [9, 9, 9, 9, 9] = some
        (.ok (UMAX - (wmA.module.callSem "fuzz"
            (writeBytes wmA.store.mem wmA.fuzz_ptr [9, 9, 9, 9, 9]) wmA.store.gst).cost),
          { wmA with store :=
            { remaining := UMAX - (wmA.module.callSem "fuzz"
                (writeBytes wmA.store.mem wmA.fuzz_ptr [9, 9, 9, 9, 9]) wmA.store.gst).cost,
              total := UMAX,
              mem := (wmA.module.callSem "fuzz"
                (writeBytes wmA.store.mem wmA.fuzz_ptr [9, 9, 9, 9, 9]) wmA.store.gst).mem,
              gst := (wmA.module.callSem "fuzz"
                (writeBytes wmA.store.mem wmA.fuzz_ptr [9, 9, 9, 9, 9]) wmA.store.gst).gst } })) ∧
    (wmA.store.mem.length < wmA.fuzz_ptr + ([9, 9, 9, 9, 9] : List Nat).length →
      count_instructionsAt 0 rnd1 wmA [9, 9, 9, 9, 9] = some (.error .MemorySetError, wmA)) := by
  exact c3_theorem 0 rnd1 wmA [9, 9, 9, 9, 9] []
    (by decide) (Or.inr ⟨rfl, by decide, by decide⟩) rfl rfl rfl (by decide)

/-- `envLen L` satisfies the calling convention with pointer 0, length `L`,
string flag 0, for any `L` in `i32` range. -/
theorem convention_envLen (L : Int) (h1 : -(2 ^ 31) ≤ L) (h2 : L < 2 ^ 31) :
    Convention (envLen L) 0 L 0 := by
  refine ⟨rfl, rfl, rfl, rfl, rfl, rfl, rfl, rfl, rfl, rfl, rfl,
    fun m g => rfl, fun m g => ?_, fun m g => rfl, fun m g => rfl,
    fun m g => rfl, fun m g => rfl, le_refl 0, h1, h2⟩
  show (5 : Nat) ≤ 2 ^ 60
  norm_num

/-- C4: for any module satisfying the calling convention, if the declared
input length `L` (the signed `i32` the `"input_len"` export returns) is a
length with `0 ≤ L ≤ 1024` (and the input buffer fits the linear memory),
construction succeeds and the discovered input length is `L`; if
`L > 1024`, construction fails with `FuzzLenTooLong L`. -/
theorem c4_theorem (d : Nat) (rnd : Rnd) (env : ModuleEnv) (P L S : Int)
    (hc : Convention env P L S) :
    (0 ≤ L → L ≤ 1024 → toUsize P + toU32 L ≤ env.initMem.length →
      ∃ wm, newAt d rnd env = some (.ok wm) ∧ wm.fuzz_len = L.toNat) ∧
    (1024 < L → newAt d rnd env = some (.error (.FuzzLenTooLong L.toNat))) := by
  constructor
  · intro h0 h1 h2
    refine ⟨_, new_conv d rnd hc h1 h2, ?_⟩
    unfold newHarness
    dsimp only
    exact toU32_of_nonneg h0 (by have := hc.lenUB; omega)
  · intro h1
    have hsip := sip_conv_fail d rnd hc h1
    unfold set_input_pointerAt at hsip
    unfold newAt newWith
    simp only [hc.inst, hc.hasMem, hc.isMem, if_true]
    rw [hsip]
    rw [toU32_of_nonneg (by omega) (by have := hc.lenUB; omega)]

/-- Witness for `c4_theorem`: `envLen 2` constructs with discovered length
2; `envLen 2000` fails with `FuzzLenTooLong 2000`. -/
theorem c4_witness :
    (∃ wm, newAt 1 rnd1 (envLen 2) = some (.ok wm) ∧
      wm.fuzz_len = (2 : Int).toNat) ∧
    newAt 1 rnd1 (envLen 2000) =
      some (.error (.FuzzLenTooLong (2000 : Int).toNat)) := by
  refine ⟨(c4_theorem 1 rnd1 (envLen 2) 0 2 0
      (convention_envLen 2 (by norm_num) (by norm_num))).1
      (by norm_num) (by norm_num) (by decide),
    (c4_theorem 1 rnd1 (envLen 2000) 0 2000 0
      (convention_envLen 2000 (by norm_num) (by norm_num))).2 (by norm_num)⟩

/-- C10: the 1024 bound is checked on the declared length as a *signed*
`i32`.  For any convention-following module whose `"input_len"` export
returns a negative `i32` value `L`, the resolver's length check passes,
the resolver succeeds, and the discovered input length it stores is the
two's-complement unsigned reinterpretation `L + 2^32` — which exceeds
1024. -/
theorem c10_theorem (d : Nat) (rnd : Rnd) (env : ModuleEnv) (P L S : Int)
    (hc : Convention env P L S) (hneg : L < 0) :
    ∃ wm, set_input_pointerAt d rnd (initialHarness env) = some (.ok wm) ∧
      wm.fuzz_len = (L + 2 ^ 32).toNat ∧ 1024 < wm.fuzz_len := by
  refine ⟨_, sip_conv d rnd hc (by omega), ?_, ?_⟩
  · dsimp only
    exact toU32_of_neg hc.lenLB hneg
  · dsimp only
    exact toU32_big_of_neg hc.lenLB hneg

/-- Witness for `c10_theorem`: a module declaring input length `-1` passes
the length check and the discovered length becomes `2^32 - 1`. -/
theorem c10_witness :
    ∃ wm, set_input_pointerAt 1 rnd1 (initialHarness (envLen (-1))) = some (.ok wm) ∧
      wm.fuzz_len = ((-1 : Int) + 2 ^ 32).toNat ∧ 1024 < wm.fuzz_len := by
  exact c10_theorem 1 rnd1 (envLen (-1)) 0 (-1) 0
    (convention_envLen (-1) (by norm_num) (by norm_num)) (by norm_num)

/-- C2: two-run determinism.  Take one convention-following module whose
`"fuzz"` cost is determined by the bytes of the input window (the region
`[P, P + |x|)` of linear memory).  Construct two harnesses over it
independently — different random priming streams `rA`/`rB`, different
reboot depths — and run `count_instructions` on the identical input `x`
(of the declared length) on both, again with arbitrary and possibly
different depths and random streams: both runs succeed and return the
identical instruction count. -/
theorem c2_theorem (d1 d2 e1 e2 : Nat) (rA rB s1 s2 : Rnd)
    (env : ModuleEnv) (P L S : Int) (x : List Nat) (wm1 wm2 : WasmModule)
    (hc : Convention env P L S) (hL : L ≤ 1024)
    (hfit : toUsize P + toU32 L ≤ env.initMem.length)
    (h1 : newAt d1 rA env = some (.ok wm1))
    (h2 : newAt d2 rB env = some (.ok wm2))
    (hx : x.length = toU32 L)
    (hdet : ∀ m g m' g',
      (m.drop (toUsize P)).take x.length = (m'.drop (toUsize P)).take x.length →
      (env.callSem "fuzz" m g).cost = (env.callSem "fuzz" m' g').cost) :
    ∃ c u1 u2, count_instructionsAt e1 s1 wm1 x = some (.ok c, u1) ∧
      count_instructionsAt e2 s2 wm2 x = some (.ok c, u2) := by
  rw [new_conv d1 rA hc hL hfit] at h1
  rw [new_conv d2 rB hc hL hfit] at h2
  simp only [Option.some.injEq, Except.ok.injEq] at h1 h2
  subst h1
  subst h2
  have hmlen : ∀ r : Rnd,
      (newHarness r env P L S).store.mem.length = env.initMem.length := by
    intro r
    unfold newHarness primedMem
    dsimp only
    rw [hc.fuzzMemLen,
      writeBytes_length (by rw [genInput_length, hc.fuzzMemLen]; exact hfit),
      hc.fuzzMemLen]
  have hfits : ∀ r : Rnd, (newHarness r env P L S).fuzz_ptr + x.length ≤
      (newHarness r env P L S).store.mem.length := by
    intro r
    rw [hmlen r, hx]
    exact hfit
  have hpre : ∀ r : Rnd, PreOK (newHarness r env P L S).store := by
    intro r
    refine Or.inr ⟨rfl, ?_, ?_⟩ <;>
      · unfold newHarness
        dsimp only
        have := hc.fuzzCost (primedMem r env P L)
          (env.callSem "fuzz" env.initMem env.initGst).gst
        rw [UMAX_eq] at *
        omega
  have hci1 := ci_success (rebootAt e1) s1 (newHarness rA env P L S) x _ []
    (writeInput_ok_of_fits (hfits rA)) (hpre rA) hc.fuzzExp hc.fuzzAr
    (hc.fuzzRes _ _) (hc.fuzzCost _ _)
  have hci2 := ci_success (rebootAt e2) s2 (newHarness rB env P L S) x _ []
    (writeInput_ok_of_fits (hfits rB)) (hpre rB) hc.fuzzExp hc.fuzzAr
    (hc.fuzzRes _ _) (hc.fuzzCost _ _)
  have h1' : ∃ u1, count_instructionsAt e1 s1 (newHarness rA env P L S) x =
      some (.ok (UMAX - measuredCost env rA P L S x), u1) := ⟨_, hci1⟩
  have h2' : ∃ u2, count_instructionsAt e2 s2 (newHarness rB env P L S) x =
      some (.ok (UMAX - measuredCost env rB P L S x), u2) := ⟨_, hci2⟩
  have hwin : ∀ r : Rnd, ((writeBytes (newHarness r env P L S).store.mem
      (newHarness r env P L S).fuzz_ptr x).drop
        (toUsize P)).take x.length = x := by
    intro r
    exact writeBytes_window (hfits r)
  have hceq : measuredCost env rB P L S x = measuredCost env rA P L S x := by
    unfold measuredCost
    exact hdet _ _ _ _ ((hwin rB).trans (hwin rA).symm)
  rw [hceq] at h2'
  obtain ⟨u1, hu1⟩ := h1'
  obtain ⟨u2, hu2⟩ := h2'
  exact ⟨UMAX - measuredCost env rA P L S x, u1, u2, hu1, hu2⟩

/-- Witness for `c2_theorem`: the two independently constructed harnesses
`wmA` (priming stream `rnd1`) and `wmB` (priming stream `rnd3`) over
`envLen 2` return the same count on input `[4, 4]`. -/
theorem c2_witness :
    ∃ c u1 u2, count_instructionsAt 0 rnd1 wmA [4, 4] = some (.ok c, u1) ∧
      count_instructionsAt 0 rnd3 wmB [4, 4] = some (.ok c, u2) := by
  exact c2_theorem 1 1 0 0 rnd1 rnd3 rnd1 rnd3 (envLen 2) 0 2 0 [4, 4]
    wmA wmB (convention_envLen 2 (by norm_num) (by norm_num)) (by norm_num)
    (by decide) rfl rfl (by decide) (fun m g m' g' _ => rfl)

/-- Metered call failing with a non-out-of-bounds trap: the trap is wrapped
in `WasmError` and returned, no reboot happens, and the store keeps the
written memory and the (consumed-from-`u64::MAX`) fuel. -/
theorem ci_trap (rb : Rnd → WasmModule → Option WasmModule) (rnd : Rnd)
    (wm : WasmModule) (input : List Nat) (st1 : Store) (t : TrapCode)
    (hw : writeInput wm input = .ok st1)
    (hpre : PreOK wm.store)
    (hexp : wm.module.funcExports "fuzz" = true)
    (har : wm.module.arity "fuzz" = 0)
    (hres : (wm.module.callSem "fuzz" st1.mem st1.gst).result = .error t)
    (hcost : (wm.module.callSem "fuzz" st1.mem st1.gst).cost ≤ 2 ^ 60)
    (hnoob : t ≠ TrapCode.memoryOutOfBounds) :
    count_instructions rb rnd wm input =
      some (.error (.WasmError (.trap t)),
        { wm with store :=
          { remaining := UMAX - (wm.module.callSem "fuzz" st1.mem st1.gst).cost,
            total := UMAX,
            mem := (wm.module.callSem "fuzz" st1.mem st1.gst).mem,
            gst := (wm.module.callSem "fuzz" st1.mem st1.gst).gst } }) := by
  have hpre1 : PreOK st1 := by
    obtain ⟨-, h2⟩ := writeInput_ok hw
    subst h2
    exact hpre
  rcases hout : wm.module.callSem "fuzz" st1.mem st1.gst with ⟨resO, memO, gstO, costO⟩
  rw [hout] at hres hcost
  dsimp only at hres hcost
  subst hres
  unfold count_instructions callFunc
  rw [hw]
  dsimp only
  rw [topUp_reset hpre1]
  dsimp only
  rw [hout]
  dsimp only
  simp only [hexp, har, eq_self_iff_true, if_true]
  rw [if_pos (le_trans hcost (by rw [UMAX_eq]; omega))]
  try dsimp only
  rw [if_neg (show ¬ (WasmiError.trap t = WasmiError.trap .memoryOutOfBounds) by
    simp [hnoob])]

/-- `set_input_pointer` on an always-trapping module: the initial discarded
call fails (and its failure is ignored), the three getters still resolve,
and the descriptor is populated. -/
theorem alwaysTrap_sip (d : Nat) (rnd : Rnd) (t : TrapCode) (c : Nat)
    (ht : t ≠ .memoryOutOfBounds) (hcb : c ≤ 2 ^ 60) :
    set_input_pointerAt d rnd (initialHarness (alwaysTrapEnv t c)) = some (.ok
      { module := alwaysTrapEnv t c,
        store := { remaining := UMAX - c, total := UMAX,
                   mem := [0, 0, 0, 0], gst := 0 },
        fuzz_ptr := toUsize 0, fuzz_len := toU32 2,
        input_is_str := decide ((0 : Int) < 0) }) := by
  have hw : writeInput (initialHarness (alwaysTrapEnv t c)) [] =
      .ok (initialStore (alwaysTrapEnv t c)) := by
    unfold writeInput memWrite initialHarness initialStore
    simp [writeBytes]
  have hci0 := ci_trap (rebootAt d) rnd (initialHarness (alwaysTrapEnv t c))
    [] (initialStore (alwaysTrapEnv t c)) t hw (Or.inl ⟨rfl, rfl⟩) rfl rfl rfl
    hcb ht
  have hci : count_instructions (rebootAt d) rnd (initialHarness (alwaysTrapEnv t c)) [] =
      some (.error (.WasmError (.trap t)),
        { module := alwaysTrapEnv t c,
          store := { remaining := UMAX - c, total := UMAX,
                     mem := [0, 0, 0, 0], gst := 0 },
          fuzz_ptr := 0, fuzz_len := 0, input_is_str := false }) := hci0
  unfold set_input_pointerAt count_instructionsAt set_input_pointer
  rw [hci]
  try dsimp only
  rw [callFunc_getter rfl rfl]
  try dsimp only
  rw [callFunc_getter rfl rfl]
  try dsimp only
  rw [callFunc_getter rfl rfl]
  try dsimp only
  simp only [List.headD_cons]
  try dsimp only
  rw [if_neg (by norm_num : ¬ ((1024 : Int) < 2))]
  simp only [show (alwaysTrapEnv t c).funcExports "input_pointer" = true from rfl,
    show (alwaysTrapEnv t c).funcExports "input_len" = true from rfl,
    show (alwaysTrapEnv t c).funcExports "input_is_str" = true from rfl, if_true]

/-- The priming loop on an always-trapping module: every attempt fails
with the same wrapped trap; when the attempt counter `i` plus the
remaining iterations `fuel` equal the source's cap of 100, the loop
performs exactly the remaining attempts and surfaces the last error. -/
theorem alwaysTrap_prime (d : Nat) (rnd : Rnd) (t : TrapCode) (c : Nat)
    (ht : t ≠ .memoryOutOfBounds) (hcb : c ≤ 2 ^ 60) :
    ∀ fuel i wm, wm.module = alwaysTrapEnv t c → wm.fuzz_ptr = toUsize 0 →
      wm.fuzz_len = toU32 2 → wm.store.mem.length = 4 → PreOK wm.store →
      i + fuel = 100 → 1 ≤ fuel →
      prime_lazy_statics (count_instructionsAt d) rnd wm i fuel =
        some (.error (.WasmError (.trap t))) := by
  intro fuel
  induction fuel with
  | zero => intro i wm _ _ _ _ _ _ hf; omega
  | succ fuel ih =>
    intro i wm hmod hptr hlen hmlen hpre hsum _
    have hfits : wm.fuzz_ptr + (genInput (rnd i) wm.fuzz_len).length ≤
        wm.store.mem.length := by
      rw [genInput_length, hptr, hlen, hmlen]
      decide
    have hw := writeInput_ok_of_fits hfits
    have hres : (wm.module.callSem "fuzz"
        (writeBytes wm.store.mem wm.fuzz_ptr (genInput (rnd i) wm.fuzz_len))
        wm.store.gst).result = .error t := by
      rw [hmod]
      rfl
    have hcost : (wm.module.callSem "fuzz"
        (writeBytes wm.store.mem wm.fuzz_ptr (genInput (rnd i) wm.fuzz_len))
        wm.store.gst).cost ≤ 2 ^ 60 := by
      rw [hmod]
      exact hcb
    have hcc : (wm.module.callSem "fuzz"
        (writeBytes wm.store.mem wm.fuzz_ptr (genInput (rnd i) wm.fuzz_len))
        wm.store.gst).cost = c := by
      rw [hmod]
      rfl
    have hmm : (wm.module.callSem "fuzz"
        (writeBytes wm.store.mem wm.fuzz_ptr (genInput (rnd i) wm.fuzz_len))
        wm.store.gst).mem =
        writeBytes wm.store.mem wm.fuzz_ptr (genInput (rnd i) wm.fuzz_len) := by
      rw [hmod]
      rfl
    have hci := ci_trap (rebootAt d) rnd wm (genInput (rnd i) wm.fuzz_len) _ t
      hw hpre (by rw [hmod]; rfl) (by rw [hmod]; rfl) hres hcost ht
    unfold prime_lazy_statics
    dsimp only
    unfold count_instructionsAt
    rw [hci]
    try dsimp only
    by_cases hib : i + 1 ≥ 100
    · rw [if_pos hib]
    · rw [if_neg hib]
      refine ih (i + 1) _ hmod hptr hlen ?_ ?_ (by omega) (by omega)
      · show (wm.module.callSem "fuzz"
          (writeBytes wm.store.mem wm.fuzz_ptr (genInput (rnd i) wm.fuzz_len))
          wm.store.gst).mem.length = 4
        rw [hmm, writeBytes_length hfits, hmlen]
      · refine Or.inr ⟨rfl, ?_, ?_⟩ <;>
          · show _ ≤ _
            dsimp only
            rw [hcc, UMAX_eq]
            omega

/-- C5 (amended): on a module whose entry point always fails (with any
non-out-of-bounds trap of bounded cost), construction fails after exactly
100 priming attempts, and the error surfaced is the *last observed error
itself* — the raw wrapped trap of the 100th attempt — not a
`PrimingExhausted` wrapper. -/
theorem c5_theorem (d : Nat) (rnd : Rnd) (t : TrapCode) (c : Nat)
    (ht : t ≠ .memoryOutOfBounds) (hcb : c ≤ 2 ^ 60) :
    newAt d rnd (alwaysTrapEnv t c) =
      some (.error (.WasmError (.trap t))) := by
  have hs := alwaysTrap_sip d rnd t c ht hcb
  unfold set_input_pointerAt at hs
  unfold newAt newWith
  simp only [show (alwaysTrapEnv t c).instantiateOk = true from rfl,
    show (alwaysTrapEnv t c).hasMemoryExport = true from rfl,
    show (alwaysTrapEnv t c).memoryIsMemory = true from rfl, if_true]
  rw [hs]
  try dsimp only
  refine alwaysTrap_prime d rnd t c ht hcb 100 0 _ rfl rfl rfl rfl ?_ rfl
    (by omega)
  refine Or.inr ⟨rfl, ?_, ?_⟩ <;>
    · show _ ≤ _
      dsimp only
      rw [UMAX_eq]
      omega

/-- C5 counterexample: `envC5`'s entry point always traps, with a trap code
that reveals the number of `"fuzz"` invocations so far (its guest state
counts them; the resolver's discarded empty-input call is invocation 0, so
priming attempt `i` is invocation `i + 1`).  Construction fails surfacing
the raw trap of invocation 100 — i.e. the 100th priming attempt, exactly
at the cap — and the surfaced error is *not* the spec's `PrimingExhausted`
wrapper. -/
theorem c5_counterexample :
    errOf (newAt 1 rnd1 envC5) =
      some (.WasmError (.trap (.other 100))) ∧
    isPrimingExhausted (.WasmError (.trap (.other 100))) = false := by
  exact ⟨rfl, rfl⟩

/-- Witness for `c5_theorem` at a concrete instance. -/
theorem c5_witness :
    newAt 0 rnd1 (alwaysTrapEnv (.other 7) 5) =
      some (.error (.WasmError (.trap (.other 7)))) := by
  exact c5_theorem 0 rnd1 (.other 7) 5 (by decide) (by norm_num)

/-- A harness whose module does not export `"fuzz"`: the metered call fails
with `WasmModuleNoInputPointer` (the source reuses that error name), after
the write and the fuel top-up already happened. -/
theorem ci_nofuzz (rb : Rnd → WasmModule → Option WasmModule) (rnd : Rnd)
    (wm : WasmModule) (input : List Nat) (st1 : Store)
    (hw : writeInput wm input = .ok st1)
    (hexp : wm.module.funcExports "fuzz" = false) :
    count_instructions rb rnd wm input =
      some (.error .WasmModuleNoInputPointer, { wm with store := topUp st1 }) := by
  unfold count_instructions
  rw [hw]
  dsimp only
  rw [if_neg (by simp [hexp])]

/-- `envC6` is benign for the invariant machinery: every convention export
costs at most `2^60` and preserves the memory size. -/
theorem envC6_envOK : EnvOK envC6 := by
  refine ⟨fun m g => ⟨?_, ?_, ?_, ?_⟩, fun m g => ⟨?_, ?_, ?_, ?_⟩⟩ <;>
    first
      | rfl
      | exact (show (3 : Nat) ≤ 2 ^ 60 by norm_num)
      | exact (show (0 : Nat) ≤ 2 ^ 60 by norm_num)

/-- C6: if the measured call fails with a trap of kind `t`, then
`count_instructions` surfaces exactly `WasmError (trap t)` to the caller,
and the reboot controller runs if and only if `t` is
`MemoryOutOfBounds`: for any other trap kind the harness keeps the
post-call store `st3` untouched, while for `MemoryOutOfBounds` the result
is the rebooted harness carrying the very same error (the error is never
replaced; if the reboot itself cannot reconstruct, the process aborts). -/
theorem c6_theorem (d : Nat) (rnd : Rnd) (wm : WasmModule) (input : List Nat)
    (st1 st3 : Store) (t : TrapCode)
    (hw : writeInput wm input = .ok st1)
    (hexp : wm.module.funcExports "fuzz" = true)
    (hcall : callFunc wm.module "fuzz" 0 (topUp st1) =
      (.error (.trap t), st3)) :
    count_instructionsAt d rnd wm input =
      if t = TrapCode.memoryOutOfBounds then
        (rebootAt d rnd { wm with store := st3 }).map
          (fun wr => (.error (.WasmError (.trap t)), wr))
      else some (.error (.WasmError (.trap t)), { wm with store := st3 }) := by
  have h := ci_error (rebootAt d) rnd wm input st1 st3 (.trap t) hw hexp hcall
  unfold count_instructionsAt
  rw [h]
  simp only [WasmiError.trap.injEq]

/-- Witness for `c6_theorem`: on `wmC6`, input `[7, 7]` triggers an
out-of-bounds trap; the call reports the trap and reboots. -/
theorem c6_witness :
    count_instructionsAt 1 rnd1 wmC6 [7, 7] =
      if TrapCode.memoryOutOfBounds = TrapCode.memoryOutOfBounds then
        (rebootAt 1 rnd1 { wmC6 with store := stC6 }).map
          (fun wr => (.error (.WasmError (.trap .memoryOutOfBounds)), wr))
      else some (.error (.WasmError (.trap .memoryOutOfBounds)),
        { wmC6 with store := stC6 }) := by
  exact c6_theorem 1 rnd1 wmC6 [7, 7] stC6 stC6 .memoryOutOfBounds rfl rfl rfl

/-- C7: a call that triggers an out-of-bounds trap reports
`WasmError (trap MemoryOutOfBounds)` and hands back the rebooted harness;
the rebooted harness retains the module bytes, the discovered input length
and the string flag unchanged, and the immediately following call on it
succeeds (for any input the module handles that fits its memory). -/
theorem c7_theorem (d e : Nat) (rnd rnd2 : Rnd) (wm : WasmModule)
    (input y : List Nat) (st1 st3 : Store) (wr : WasmModule) (vs : List Value)
    (henv : EnvOK wm.module)
    (hw : writeInput wm input = .ok st1)
    (hexp : wm.module.funcExports "fuzz" = true)
    (har : wm.module.arity "fuzz" = 0)
    (hcall : callFunc wm.module "fuzz" 0 (topUp st1) =
      (.error (.trap .memoryOutOfBounds), st3))
    (hreb : rebootAt d rnd { wm with store := st3 } = some wr)
    (hfit : wr.fuzz_ptr + y.length ≤ wm.module.initMem.length)
    (hres : (wm.module.callSem "fuzz"
      (writeBytes wr.store.mem wr.fuzz_ptr y) wr.store.gst).result = .ok vs) :
    count_instructionsAt d rnd wm input =
      some (.error (.WasmError (.trap .memoryOutOfBounds)), wr) ∧
    wr.module = wm.module ∧ wr.fuzz_len = wm.fuzz_len ∧
    wr.input_is_str = wm.input_is_str ∧
    ∃ c u, count_instructionsAt e rnd2 wr y = some (.ok c, u) := by
  have hfm' : wr.module = wm.module := (rebootAt_frame hreb).1
  have hstrong := rebootAt_strong d hreb henv
  refine ⟨?_, hfm', (rebootAt_frame hreb).2.2.1, (rebootAt_frame hreb).2.2.2, ?_⟩
  · have h := ci_error (rebootAt d) rnd wm input st1 st3
      (.trap .memoryOutOfBounds) hw hexp hcall
    unfold count_instructionsAt
    rw [h, if_pos rfl, hreb]
    rfl
  · have hml : wr.store.mem.length = wm.module.initMem.length := by
      have h' := hstrong.2
      unfold MemLenInv at h'
      rw [hfm'] at h'
      exact h'
    have hw2 : writeInput wr y = .ok
        { wr.store with mem := writeBytes wr.store.mem wr.fuzz_ptr y } :=
      writeInput_ok_of_fits (by rw [hml]; exact hfit)
    have hexp2 : wr.module.funcExports "fuzz" = true := by rw [hfm']; exact hexp
    have har2 : wr.module.arity "fuzz" = 0 := by rw [hfm']; exact har
    have hres2 : (wr.module.callSem "fuzz"
        (writeBytes wr.store.mem wr.fuzz_ptr y) wr.store.gst).result = .ok vs := by
      rw [hfm']
      exact hres
    have hcost2 : (wr.module.callSem "fuzz"
        (writeBytes wr.store.mem wr.fuzz_ptr y) wr.store.gst).cost ≤ 2 ^ 60 := by
      rw [hfm']
      exact (henv.1 _ _).1
    exact ⟨_, _, ci_success (rebootAt e) rnd2 wr y _ vs hw2
      (Or.inr (strongF_genF hstrong.1)) hexp2 har2 hres2 hcost2⟩

/-- Witness for `c7_theorem`: `wmC6` faults out-of-bounds on `[7, 7]`,
reboots into `wrC6` with its descriptor intact, and the next call on
`[1, 1]` succeeds. -/
theorem c7_witness :
    count_instructionsAt 1 rnd1 wmC6 [7, 7] =
      some (.error (.WasmError (.trap .memoryOutOfBounds)), wrC6) ∧
    wrC6.module = wmC6.module ∧ wrC6.fuzz_len = wmC6.fuzz_len ∧
    wrC6.input_is_str = wmC6.input_is_str ∧
    ∃ c u, count_instructionsAt 0 rnd1 wrC6 [1, 1] = some (.ok c, u) := by
  exact c7_theorem 1 0 rnd1 rnd1 wmC6 [7, 7] [1, 1] stC6 stC6 wrC6 []
    envC6_envOK rfl rfl rfl rfl rfl (by decide) rfl

/-- C8 (amended): a successful reboot runs the *full* construction path of
`WasmModule::new` on the retained module bytes — including the Convention
Resolver (`set_input_pointer`), whose successful run the first conjunct
exhibits — and then adopts only the rebuilt store; the harness's own
descriptor fields (`fuzz_ptr`, `fuzz_len`, `input_is_str`) are retained
as they were, the freshly re-resolved values being discarded. -/
theorem c8_theorem (d : Nat) (rnd : Rnd) (wm wr : WasmModule)
    (h : rebootAt (d + 1) rnd wm = some wr) :
    (∃ wm1, set_input_pointer (count_instructionsAt d) rnd (initialHarness wm.module) =
      some (.ok wm1)) ∧
    (∃ fresh, newAt d rnd wm.module = some (.ok fresh) ∧
      wr = { wm with store := fresh.store }) ∧
    wr.module = wm.module ∧ wr.fuzz_ptr = wm.fuzz_ptr ∧
    wr.fuzz_len = wm.fuzz_len ∧ wr.input_is_str = wm.input_is_str := by
  unfold rebootAt at h
  split at h
  · rename_i fresh heq
    simp only [Option.some.injEq] at h
    subst h
    refine ⟨?_, ⟨fresh, heq, rfl⟩, rfl, rfl, rfl, rfl⟩
    unfold newWith at heq
    split at heq
    · split at heq
      · split at heq
        · split at heq
          · exact absurd heq (by simp)
          · simp at heq
          · rename_i wm1 heqsip
            exact ⟨wm1, heqsip⟩
        · simp at heq
      · simp at heq
    · simp at heq
  · simp at h

/-- C8 counterexample: in `envC8` the guest state counts resolver-getter
invocations on the live instance.  The harness the source's reboot hands
back has guest state 3 — the three Convention Resolver getters ran on the
fresh instance during the reboot — whereas the spec's reboot (§4.4:
"explicitly skips 4.2", modelled by `rebootSpecAt`) yields guest state 0.
The resolver therefore *is* re-run as part of a reboot (its result merely
discarded), refuting the claim as stated. -/
theorem c8_counterexample :
    (rebootAt 1 rnd1 wmC8).map (fun w => w.store.gst) = some 3 ∧
    (rebootSpecAt 1 rnd1 wmC8).map (fun w => w.store.gst) = some 0 := by
  exact ⟨rfl, rfl⟩

/-- Witness for `c8_theorem` at a concrete instance. -/
theorem c8_witness :
    (∃ wm1, set_input_pointer (count_instructionsAt 0) rnd1 (initialHarness wmC8.module) =
      some (.ok wm1)) ∧
    (∃ fresh, newAt 0 rnd1 wmC8.module = some (.ok fresh) ∧
      wrC8 = { wmC8 with store := fresh.store }) ∧
    wrC8.module = wmC8.module ∧ wrC8.fuzz_ptr = wmC8.fuzz_ptr ∧
    wrC8.fuzz_len = wmC8.fuzz_len ∧ wrC8.input_is_str = wmC8.input_is_str := by
  exact c8_theorem 0 rnd1 wmC8 wrC8 rfl

/-- C9 (amended): a module missing `"input_len"` fails construction with
`WasmModuleBadInpuLen` (the error the source dedicates to the input-length
lookup), and a module missing the `"memory"` export fails with
`WasmModuleNoMemory` (the spec's `MissingMemoryExport`). -/
theorem c9_theorem (d : Nat) (rnd : Rnd) (env env2 : ModuleEnv) (P : Int)
    (h1 : env.instantiateOk = true) (h2 : env.hasMemoryExport = true)
    (h3 : env.memoryIsMemory = true)
    (h4 : env.funcExports "fuzz" = false)
    (h5 : env.funcExports "input_pointer" = true)
    (h6 : env.arity "input_pointer" = 1)
    (h7 : ∀ m g, env.callSem "input_pointer" m g = ⟨.ok [.i32 P], m, g, 0⟩)
    (h8 : env.funcExports "input_len" = false)
    (h9 : env2.instantiateOk = true) (h10 : env2.hasMemoryExport = false) :
    newAt d rnd env = some (.error .WasmModuleBadInpuLen) ∧
    newAt d rnd env2 = some (.error .WasmModuleNoMemory) := by
  constructor
  · have hw0 : writeInput (initialHarness env) [] = .ok (initialStore env) := by
      unfold writeInput memWrite initialHarness initialStore
      simp [writeBytes]
    have hci := ci_nofuzz (rebootAt d) rnd (initialHarness env) []
      (initialStore env) hw0 h4
    unfold newAt newWith
    simp only [h1, h2, h3, if_true]
    unfold set_input_pointer count_instructionsAt
    simp only [initialHarness, initialStore] at hci ⊢
    rw [hci]
    try dsimp only
    simp only [h5, eq_self_iff_true, if_true]
    rw [callFunc_getter h6 (h7 _ _)]
    try dsimp only
    rw [if_neg (by simp [h8])]
  · unfold newAt newWith
    simp only [h9, if_true]
    rw [if_neg (by simp [h10])]

/-- C9 counterexample: the very same typed error `WasmModuleBadInpuLen` is
produced both for a module missing `"input_len"` and for a module missing
`"input_is_str"` — the error does not identify which convention export is
missing. -/
theorem c9_counterexample :
    newAt 1 rnd1 envNoLen = some (.error .WasmModuleBadInpuLen) ∧
    newAt 1 rnd1 envNoStr = some (.error .WasmModuleBadInpuLen) := by
  exact ⟨rfl, rfl⟩

/-- Witness for `c9_theorem` at concrete instances. -/
theorem c9_witness :
    newAt 0 rnd1 envC9A = some (.error .WasmModuleBadInpuLen) ∧
    newAt 0 rnd1 envC9B = some (.error .WasmModuleNoMemory) := by
  exact c9_theorem 0 rnd1 envC9A envC9B 0 rfl rfl rfl rfl rfl rfl
    (fun m g => rfl) rfl rfl rfl

end SideFuzz
